import Mathlib

/-!
# Proof-of-work difficulty retargeting (`src/pow.cpp`)

A shallow embedding of the retargeting engines, the proof validator and the
chain-work function of `pow.cpp`, followed by theorems about them.

Conventions of the embedding.

* A `const CBlockIndex*` is the list of blocks reached from it by following
  `pprev`: `NULL` is `[]`, and for `b :: rest` the pointer `b.pprev` is `rest`.
* `CBigNum` is `Int`; its division truncates toward zero (`Int.tdiv`).
* `uint256` is `Nat` reduced modulo `2 ^ 256` after every operation.
* `unsigned int` and `int64_t` values are `Nat` and `Int`; the sums and
  products formed by the code stay far below the machine widths for block
  heights and timestamps, the places where a width matters carry an explicit
  `%`.
* A path on which the C++ code dereferences `NULL` or fails an `assert`
  returns `none`.
-/

namespace Digi

/-! ## Data model -/

/-- The fields of `CBlockIndex` read by `pow.cpp`. `nAlgo` is the value of
`GetAlgo()`. Modelled from the spec: `GetMedianTimePast()` is declared outside
`pow.cpp`; the spec lists it as a derived per-block value, so it is carried as
the field `nMedianTimePast`. -/
structure CBlockIndex where
  nHeight : Nat
  nTime : Nat
  nBits : Nat
  nAlgo : Int
  nMedianTimePast : Int
deriving DecidableEq, Repr

/-- The one field of the candidate `CBlockHeader` read by `pow.cpp`. -/
structure CBlockHeader where
  nTime : Nat
deriving DecidableEq, Repr

/-- The value of `GetBlockTime()`, the timestamp as a signed 64-bit number. -/
def CBlockIndex.GetBlockTime (b : CBlockIndex) : Int := (b.nTime : Int)

/-- What `pow.cpp` takes from outside: `TestNet()`, the table behind
`Params().ProofOfWorkLimit(algo)` (a non-negative `CBigNum` per algorithm),
the constant `NUM_ALGOS`, and the floating-point test of the Kimoto Gravity
Well. `EventHorizon mass actual target` stands for
`PastRateAdjustmentRatio <= EventHorizonDeviationSlow ||
 PastRateAdjustmentRatio >= EventHorizonDeviationFast`, whose operands the code
computes in `double` from `PastBlocksMass`, `PastRateActualSeconds` and
`PastRateTargetSeconds` only. -/
structure ChainParams where
  TestNet : Bool
  ProofOfWorkLimit : Int → Nat
  NUM_ALGOS : Nat
  EventHorizon : Nat → Int → Int → Bool

/-! ## Compact target codec -/

/-- Counts the base-256 digits of `n`, with a recursion budget; part of the
model of `CBigNum::GetCompact`. -/
def numBytesAux : Nat → Nat → Nat
  | 0, _ => 0
  | fuel + 1, n => if n = 0 then 0 else numBytesAux fuel (n / 256) + 1

/-- The byte length of a magnitude, `BN_num_bytes`: the number of base-256
digits (the budget `n` is never exhausted, see `numBytes_lt`). -/
def numBytes (n : Nat) : Nat := numBytesAux n n

/-- Modelled from the spec: `CBigNum::SetCompact` is not in `pow.cpp`. The
compact layout is an exponent byte, a sign bit and a 23-bit mantissa; the
decoded number is `mantissa * 256 ^ (exponent - 3)`, negative when the sign
bit is set. -/
def CBigNum.SetCompact (nCompact : Nat) : Int :=
  let nSize := nCompact / 2 ^ 24
  let fNegative := (nCompact / 2 ^ 23) % 2 = 1
  let nWord := nCompact % 2 ^ 23
  let mag : Nat := if nSize ≤ 3 then nWord / 256 ^ (3 - nSize) else nWord * 256 ^ (nSize - 3)
  if fNegative then -(mag : Int) else (mag : Int)

/-- Modelled from the spec: `CBigNum::GetCompact` is not in `pow.cpp`. The
three most significant bytes of the magnitude become the mantissa; when that
would set the sign bit the mantissa loses one more byte and the exponent
grows by one; the sign bit is set for a negative number. The result is an
`unsigned int`. -/
def CBigNum.GetCompact (bn : Int) : Nat :=
  let mag := bn.natAbs
  let nSize := numBytes mag
  let nCompact := if nSize ≤ 3 then mag * 256 ^ (3 - nSize) else mag / 256 ^ (nSize - 3)
  let shifted := (nCompact / 2 ^ 23) % 2 = 1
  let nCompact1 := if shifted then nCompact / 256 else nCompact
  let nSize1 := if shifted then nSize + 1 else nSize
  let nCompact2 := nCompact1 + nSize1 * 2 ^ 24
  let nCompact3 := if bn < 0 then nCompact2 + 2 ^ 23 else nCompact2
  nCompact3 % 2 ^ 32

/-- Modelled from the spec: `CBigNum::getuint256` is not in `pow.cpp`. A
256-bit unsigned number keeps the low 256 bits of the magnitude. -/
def CBigNum.getuint256 (bn : Int) : Nat := bn.natAbs % 2 ^ 256

/-- The result of decoding into a `uint256`: the value and the two flags. -/
structure CompactDecode where
  target : Nat
  fNegative : Bool
  fOverflow : Bool
deriving DecidableEq, Repr

/-- Modelled from the spec: `uint256::SetCompact(nCompact, &fNegative,
&fOverflow)` is not in `pow.cpp`. Same layout as `CBigNum.SetCompact`, the
value held in 256 bits, with the negative and overflow decode flags. -/
def uint256.SetCompact (nCompact : Nat) : CompactDecode :=
  let nSize := nCompact / 2 ^ 24
  let nWord0 := nCompact % 2 ^ 23
  let nWord := if nSize ≤ 3 then nWord0 / 256 ^ (3 - nSize) else nWord0
  let value := if nSize ≤ 3 then nWord else (nWord * 256 ^ (nSize - 3)) % 2 ^ 256
  { target := value
    fNegative := decide (nWord ≠ 0 ∧ (nCompact / 2 ^ 23) % 2 = 1)
    fOverflow := decide (nWord ≠ 0 ∧
      (nSize > 34 ∨ (nWord > 0xff ∧ nSize > 33) ∨ (nWord > 0xffff ∧ nSize > 32))) }

/-! ## Constants of `pow.cpp` -/

def multiAlgoDiffChangeTarget : Int := 570000
def nTargetTimespan : Int := 8 * 10 * 60
def nTargetSpacing : Int := 10 * 60
def nInterval : Int := nTargetTimespan.tdiv nTargetSpacing
def multiAlgoNum : Int := 5
def multiAlgoTimespan : Int := 61
def multiAlgoTargetSpacing : Int := multiAlgoNum * multiAlgoTimespan
def nAveragingInterval : Int := 10
def nAveragingTargetTimespan : Int := nAveragingInterval * multiAlgoTargetSpacing
def nMaxAdjustDownV4 : Int := 16
def nMaxAdjustUpV4 : Int := 8
def nLocalTargetAdjustment : Int := 4
def nMinActualTimespanV4 : Int :=
  (nAveragingTargetTimespan * (100 - nMaxAdjustUpV4)).tdiv 100
def nMaxActualTimespanV4 : Int :=
  (nAveragingTargetTimespan * (100 + nMaxAdjustDownV4)).tdiv 100

/-! ## Chain traversal -/

/-- Source function `GetLastBlockIndexForAlgo(pindex, algo)`: the loop returns `NULL` on a
null pointer, the pointer itself when its block has the algorithm, and
otherwise continues from `pprev`. -/
def GetLastBlockIndexForAlgo : List CBlockIndex → Int → List CBlockIndex
  | [], _ => []
  | b :: pprev, algo =>
    if b.nAlgo = algo then b :: pprev else GetLastBlockIndexForAlgo pprev algo

/-- The loop `for (i = 0; pindexFirst && i < n; i++) pindexFirst =
pindexFirst->pprev;` of the Legacy and Multi-Algo engines: the pointer it
leaves in `pindexFirst`. -/
def walkBack : List CBlockIndex → Nat → List CBlockIndex
  | [], _ => []
  | b :: pprev, 0 => b :: pprev
  | _ :: pprev, n + 1 => walkBack pprev n

/-! ## Kimoto Gravity Well -/

/-- The variables of `KimotoGravityWell` that live across loop iterations. -/
structure KGWState where
  PastBlocksMass : Nat
  PastRateActualSeconds : Int
  PastRateTargetSeconds : Int
  PastDifficultyAverage : Int
  PastDifficultyAveragePrev : Int
deriving DecidableEq, Repr

/-- The values the variables are initialised with. -/
def KGWState.init : KGWState := ⟨0, 0, 0, 0, 0⟩

/-- The `for` loop of `KimotoGravityWell`, from the block `BlockReading`
points to and the counter `i`; returns the variables at loop exit. -/
def KGWLoop (P : ChainParams) (BlockLastSolved : CBlockIndex)
    (TargetBlocksSpacingSeconds PastBlocksMin PastBlocksMax : Nat) :
    List CBlockIndex → Nat → KGWState → KGWState
  | [], _, s => s
  | BlockReading :: pprev, i, s =>
    if ¬ (BlockReading.nHeight > 0) then s
    else if PastBlocksMax > 0 ∧ i > PastBlocksMax then s
    else
      let PastBlocksMass := s.PastBlocksMass + 1
      let PastDifficultyAverage : Int :=
        if i = 1 then CBigNum.SetCompact BlockReading.nBits
        else (CBigNum.SetCompact BlockReading.nBits - s.PastDifficultyAveragePrev).tdiv (i : Int)
              + s.PastDifficultyAveragePrev
      let PastRateActualSeconds0 : Int :=
        BlockLastSolved.GetBlockTime - BlockReading.GetBlockTime
      let PastRateTargetSeconds : Int :=
        ((TargetBlocksSpacingSeconds * PastBlocksMass : Nat) : Int)
      let PastRateActualSeconds : Int :=
        if PastRateActualSeconds0 < 0 then 0 else PastRateActualSeconds0
      let s1 : KGWState :=
        ⟨PastBlocksMass, PastRateActualSeconds, PastRateTargetSeconds,
          PastDifficultyAverage, PastDifficultyAverage⟩
      if PastBlocksMass ≥ PastBlocksMin ∧
          P.EventHorizon PastBlocksMass PastRateActualSeconds PastRateTargetSeconds = true then s1
      else if pprev.isEmpty then s1
      else KGWLoop P BlockLastSolved TargetBlocksSpacingSeconds PastBlocksMin PastBlocksMax
            pprev (i + 1) s1

/-- Source function `KimotoGravityWell(pindexLast, pblock, TargetBlocksSpacingSeconds,
PastBlocksMin, PastBlocksMax, algo)`. -/
def KimotoGravityWell (P : ChainParams) (pindexLast : List CBlockIndex) (_pblock : CBlockHeader)
    (TargetBlocksSpacingSeconds PastBlocksMin PastBlocksMax : Nat) (algo : Int) : Nat :=
  match pindexLast with
  | [] => CBigNum.GetCompact (P.ProofOfWorkLimit algo)
  | BlockLastSolved :: _ =>
    if BlockLastSolved.nHeight = 0 ∨ BlockLastSolved.nHeight < PastBlocksMin then
      CBigNum.GetCompact (P.ProofOfWorkLimit algo)
    else
      let s := KGWLoop P BlockLastSolved TargetBlocksSpacingSeconds PastBlocksMin PastBlocksMax
        pindexLast 1 KGWState.init
      let bnNew0 : Int := s.PastDifficultyAverage
      let bnNew1 : Int :=
        if s.PastRateActualSeconds ≠ 0 ∧ s.PastRateTargetSeconds ≠ 0 then
          (bnNew0 * s.PastRateActualSeconds).tdiv s.PastRateTargetSeconds
        else bnNew0
      let bnNew : Int :=
        if bnNew1 > (P.ProofOfWorkLimit algo : Int) then (P.ProofOfWorkLimit algo : Int) else bnNew1
      CBigNum.GetCompact bnNew

/-- Source function `GetNextWorkRequired_KGW`: spacing `5 * 60`, sample counts
`43200 / 300` and `1209600 / 300`. `PastSecondsMin` is the `double` product
`TimeDaySeconds * 0.5`, which is exactly `43200`. -/
def GetNextWorkRequired_KGW (P : ChainParams) (pindexLast : List CBlockIndex)
    (pblock : CBlockHeader) (algo : Int) : Nat :=
  let BlocksTargetSpacing : Nat := 5 * 60
  let TimeDaySeconds : Nat := 60 * 60 * 24
  let PastSecondsMin : Nat := TimeDaySeconds / 2
  let PastSecondsMax : Nat := TimeDaySeconds * 14
  let PastBlocksMin : Nat := PastSecondsMin / BlocksTargetSpacing
  let PastBlocksMax : Nat := PastSecondsMax / BlocksTargetSpacing
  KimotoGravityWell P pindexLast pblock BlocksTargetSpacing PastBlocksMin PastBlocksMax algo

/-! ## Legacy engine -/

/-- The testnet loop of `GetNextWorkRequired_Original`,
`while (pindex->pprev && pindex->nHeight % nInterval != 0 &&
pindex->nBits == nProofOfWorkLimit) pindex = pindex->pprev;`, followed by
`return pindex->nBits;`. The first argument is the block `pindex` points to,
the second is `pindex->pprev`. -/
def lastNonSpecialBits (nProofOfWorkLimit : Nat) : CBlockIndex → List CBlockIndex → Nat
  | pindex, [] => pindex.nBits
  | pindex, p :: pprev =>
    if (pindex.nHeight : Int) % nInterval ≠ 0 ∧ pindex.nBits = nProofOfWorkLimit then
      lastNonSpecialBits nProofOfWorkLimit p pprev
    else pindex.nBits

/-- Source function `GetNextWorkRequired_Original(pindexLast, pblock, algo)`; `none` is the
failure of `assert(pindexFirst)`. -/
def GetNextWorkRequired_Original (P : ChainParams) (pindexLast : List CBlockIndex)
    (pblock : CBlockHeader) (algo : Int) : Option Nat :=
  let nProofOfWorkLimit := CBigNum.GetCompact (P.ProofOfWorkLimit algo)
  match pindexLast with
  | [] => some nProofOfWorkLimit
  | last :: pprev =>
    if (last.nHeight : Int) + 1 < 135 then some nProofOfWorkLimit
    else if ((last.nHeight : Int) + 1) % nInterval ≠ 0 then
      if P.TestNet = true then
        if (pblock.nTime : Int) > (last.nTime : Int) + nTargetSpacing * 2 then
          some nProofOfWorkLimit
        else some (lastNonSpecialBits nProofOfWorkLimit last pprev)
      else some last.nBits
    else
      let blockstogoback : Int :=
        if (last.nHeight : Int) + 1 ≠ nInterval then nInterval else nInterval - 1
      match walkBack pindexLast blockstogoback.toNat with
      | [] => none
      | first :: _ =>
        let nActualTimespan0 : Int := last.GetBlockTime - first.GetBlockTime
        let nActualTimespanMax : Int := (nTargetTimespan * 75).tdiv 50
        let nActualTimespanMin : Int := (nTargetTimespan * 50).tdiv 75
        let nActualTimespan1 : Int :=
          if nActualTimespan0 < nActualTimespanMin then nActualTimespanMin else nActualTimespan0
        let nActualTimespan : Int :=
          if nActualTimespan1 > nActualTimespanMax then nActualTimespanMax else nActualTimespan1
        let bnNew0 : Int := CBigNum.SetCompact last.nBits
        let bnNew1 : Int := (bnNew0 * nActualTimespan).tdiv nTargetTimespan
        let bnNew : Int :=
          if bnNew1 > (P.ProofOfWorkLimit algo : Int) then (P.ProofOfWorkLimit algo : Int)
          else bnNew1
        some (CBigNum.GetCompact bnNew)

/-! ## Multi-Algo engine -/

/-- A loop `for (int i = 0; i < n; i++) bnNew = f(bnNew);`. -/
def repeatAdjust (f : Int → Int) : Nat → Int → Int
  | 0, bnNew => bnNew
  | n + 1, bnNew => repeatAdjust f n (f bnNew)

/-- Source function `GetNextWorkRequiredMULTI(pindexLast, pblock, algo)`; `none` is the
dereference of a null `pindexLast`. -/
def GetNextWorkRequiredMULTI (P : ChainParams) (pindexLast : List CBlockIndex)
    (_pblock : CBlockHeader) (algo : Int) : Option Nat :=
  let nProofOfWorkLimit := CBigNum.GetCompact (P.ProofOfWorkLimit algo)
  match pindexLast with
  | [] => none
  | last :: _ =>
    let pindexFirst := walkBack pindexLast (P.NUM_ALGOS * nAveragingInterval.toNat)
    let pindexPrevAlgo := GetLastBlockIndexForAlgo pindexLast algo
    match pindexPrevAlgo, pindexFirst with
    | [], _ => some nProofOfWorkLimit
    | _ :: _, [] => some nProofOfWorkLimit
    | prevAlgo :: _, first :: _ =>
      let nActualTimespan0 : Int := last.nMedianTimePast - first.nMedianTimePast
      let nActualTimespan1 : Int :=
        nAveragingTargetTimespan + (nActualTimespan0 - nAveragingTargetTimespan).tdiv 4
      let nActualTimespan2 : Int :=
        if nActualTimespan1 < nMinActualTimespanV4 then nMinActualTimespanV4 else nActualTimespan1
      let nActualTimespan : Int :=
        if nActualTimespan2 > nMaxActualTimespanV4 then nMaxActualTimespanV4 else nActualTimespan2
      let bnNew0 : Int := CBigNum.SetCompact prevAlgo.nBits
      let bnNew1 : Int := (bnNew0 * nActualTimespan).tdiv nAveragingTargetTimespan
      let nAdjustments : Int :=
        (prevAlgo.nHeight : Int) + (P.NUM_ALGOS : Int) - 1 - (last.nHeight : Int)
      let bnNew : Int :=
        if nAdjustments > 0 then
          repeatAdjust (fun bn => (bn * 100).tdiv (100 + nLocalTargetAdjustment))
            nAdjustments.toNat bnNew1
        else if nAdjustments < 0 then
          repeatAdjust (fun bn => (bn * (100 + nLocalTargetAdjustment)).tdiv 100)
            (-nAdjustments).toNat bnNew1
        else bnNew1
      if bnNew > (P.ProofOfWorkLimit algo : Int) then some nProofOfWorkLimit
      else some (CBigNum.GetCompact bnNew)

/-! ## Dispatcher, validator and chain work -/

/-- Source function `GetNextWorkRequired(pindexLast, pblock, algo)`; `none` is the
dereference of a null `pindexLast` or a failure inside the selected engine. -/
def GetNextWorkRequired (P : ChainParams) (pindexLast : List CBlockIndex)
    (pblock : CBlockHeader) (algo : Int) : Option Nat :=
  match pindexLast with
  | [] => none
  | last :: _ =>
    let DiffMode : Nat :=
      if P.TestNet = true then
        if (last.nHeight : Int) + 1 < 50 then 1
        else if (last.nHeight : Int) + 1 < 100 then 2
        else 3
      else
        if (last.nHeight : Int) + 1 ≤ 5400 then 1
        else if (last.nHeight : Int) + 1 ≤ multiAlgoDiffChangeTarget then 2
        else 3
    if DiffMode = 1 then GetNextWorkRequired_Original P pindexLast pblock algo
    else if DiffMode = 2 then some (GetNextWorkRequired_KGW P pindexLast pblock algo)
    else if DiffMode = 3 then GetNextWorkRequiredMULTI P pindexLast pblock algo
    else GetNextWorkRequiredMULTI P pindexLast pblock algo

/-- Source function `CheckProofOfWork(hash, nBits, algo)`; `hash` is a `uint256`. -/
def CheckProofOfWork (P : ChainParams) (hash : Nat) (nBits : Nat) (algo : Int) : Bool :=
  let bnTarget : Int := CBigNum.SetCompact nBits
  if bnTarget ≤ 0 ∨ bnTarget > (P.ProofOfWorkLimit algo : Int) then false
  else if hash > CBigNum.getuint256 bnTarget then false
  else true

/-- Source function `GetBlockProof(block)`, in 256-bit unsigned arithmetic: `~bnTarget` is
`2 ^ 256 - 1 - bnTarget`, sums are reduced modulo `2 ^ 256`. -/
def GetBlockProof (block : CBlockIndex) : Nat :=
  let d := uint256.SetCompact block.nBits
  let bnTarget := d.target
  if d.fNegative = true ∨ d.fOverflow = true ∨ bnTarget = 0 then 0
  else ((2 ^ 256 - 1 - bnTarget) / ((bnTarget + 1) % 2 ^ 256) + 1) % 2 ^ 256

/-! ## Reference definitions taken from the specification -/

/-- The chain work as the specification states it: zero when the decode
reports negative or overflow or gives a zero target, and otherwise
`2 ^ 256 / (target + 1)` rounded down, computed without a width limit. -/
def GetBlockProof_reference (block : CBlockIndex) : Nat :=
  let d := uint256.SetCompact block.nBits
  if d.fNegative = true ∨ d.fOverflow = true ∨ d.target = 0 then 0
  else 2 ^ 256 / (d.target + 1)

/-- The value `x` limited to the interval from `lo` to `hi`. -/
def clamp (x lo hi : Int) : Int := max lo (min x hi)

/-- One step of the blended average: `avg_1 = target_1` and
`avg_i = avg_{i-1} + (target_i - avg_{i-1}) / i`, the division truncating
toward zero. -/
def blendStep (avgPrev : Int) (i : Nat) (target : Int) : Int :=
  if i = 1 then target else (target - avgPrev).tdiv (i : Int) + avgPrev

/-- The blended average continued from `avgPrev` with the targets numbered
`i`, `i + 1`, ... -/
def blendFrom (avgPrev : Int) (i : Nat) : List Int → Int
  | [] => avgPrev
  | target :: rest => blendFrom (blendStep avgPrev i target) (i + 1) rest

/-- The blended average of the targets `target_1, ..., target_n`. -/
def blendedAverage (targets : List Int) : Int := blendFrom 0 1 targets

/-- The targets decoded from the bits of a list of blocks. -/
def decodedTargets (blocks : List CBlockIndex) : List Int :=
  blocks.map (fun b => CBigNum.SetCompact b.nBits)

/-- The arithmetic mean, rounded down, of the targets decoded from the bits of
the blocks of a window. -/
def meanTarget (window : List CBlockIndex) : Int :=
  (decodedTargets window).sum / (window.length : Int)

/-- A well-formed chain: the block at height `h` has exactly `h` predecessors,
so its predecessor has height `h - 1` and the last block is a genesis block at
height 0. -/
def wellFormedChain : List CBlockIndex → Bool
  | [] => true
  | b :: pprev => decide (b.nHeight = pprev.length) && wellFormedChain pprev

/-- Every block's timestamp exceeds its predecessor's by exactly `spacing`. -/
def constantSpacing (spacing : Nat) : List CBlockIndex → Bool
  | [] => true
  | [_] => true
  | b :: p :: pprev =>
    decide (b.nTime = p.nTime + spacing) && constantSpacing spacing (p :: pprev)

/-- The dampened and clamped timespan of the Multi-Algo engine as the
specification states it: `clamp(3050 + (actual - 3050) / 4, 2806, 3538)` with
`actual = tip.medianTimePast - windowStart.medianTimePast` and the division
truncating toward zero. -/
def multiAdjustedTimespan (tip windowStart : CBlockIndex) : Int :=
  clamp (3050 + ((tip.nMedianTimePast - windowStart.nMedianTimePast) - 3050).tdiv 4) 2806 3538

/-- The target after the global retarget of the Multi-Algo engine,
`lastTargetForThisAlgo * adjusted / 3050`, the division truncating toward
zero. -/
def multiGlobalTarget (prevAlgo tip windowStart : CBlockIndex) : Int :=
  (CBigNum.SetCompact prevAlgo.nBits * multiAdjustedTimespan tip windowStart).tdiv 3050

/-- The retargeted value of the Legacy engine,
`oldTarget * clamp(tip.time - start.time, 3200, 7200) / 4800`, the division
truncating toward zero. -/
def legacyRetarget (tip start : CBlockIndex) : Int :=
  (CBigNum.SetCompact tip.nBits
    * clamp (tip.GetBlockTime - start.GetBlockTime) 3200 7200).tdiv 4800

/-- The local per-algorithm correction of the Multi-Algo engine applied to
the global target `G` for `n` slots, every step truncating toward zero:
`t -> t * 100 / 104` applied `n` times when `n > 0`, `t -> t * 104 / 100`
applied `-n` times when `n < 0`, and `G` itself when `n = 0`. -/
def localCorrection (G n : Int) : Int :=
  if n > 0 then Nat.iterate (fun t => (t * 100).tdiv 104) n.toNat G
  else if n < 0 then Nat.iterate (fun t => (t * 104).tdiv 100) (-n).toNat G
  else G

/-- The local correction with every step rounded down:
`t -> floor(t * 100 / 104)` applied `n` times when `n > 0`,
`t -> floor(t * 104 / 100)` applied `-n` times when `n < 0`. -/
def localCorrectionFloor (G n : Int) : Int :=
  if n > 0 then Nat.iterate (fun t => Int.fdiv (t * 100) 104) n.toNat G
  else if n < 0 then Nat.iterate (fun t => Int.fdiv (t * 104) 100) (-n).toNat G
  else G

/-- The scaled target of the Kimoto Gravity Well for `N` samples:
`avg * elapsed / (300 * N)` with the division truncating toward zero, and
`avg` itself when `elapsed` is zero. -/
def kgwScaledTarget (avg elapsed : Int) (N : Nat) : Int :=
  if elapsed = 0 then avg else (avg * elapsed).tdiv (300 * (N : Int))

/-- What the variables of the Kimoto Gravity Well loop hold after the blocks
`sampled` (newest first) have been read: the sample count, the blended average
of their targets, the target seconds, and the elapsed seconds between the tip
and the oldest sampled block, never below zero. -/
def KGWInvariant (BlockLastSolved : CBlockIndex) (spacing : Nat)
    (sampled : List CBlockIndex) (s : KGWState) : Prop :=
  s.PastBlocksMass = sampled.length ∧
  s.PastDifficultyAverage = blendedAverage (decodedTargets sampled) ∧
  s.PastDifficultyAveragePrev = s.PastDifficultyAverage ∧
  s.PastRateTargetSeconds = ((spacing * sampled.length : Nat) : Int) ∧
  ∀ oldest, sampled.getLast? = some oldest →
    s.PastRateActualSeconds = max 0 (BlockLastSolved.GetBlockTime - oldest.GetBlockTime)

/-- The fields of a block that the Multi-Algo engine can read: height, bits,
algorithm id and median-time-past. -/
def consensusFields (b : CBlockIndex) : Nat × Nat × Int × Int :=
  (b.nHeight, b.nBits, b.nAlgo, b.nMedianTimePast)

/-- The block with its timestamp cleared, all other fields kept. -/
def withoutTime (b : CBlockIndex) : CBlockIndex :=
  ⟨b.nHeight, 0, b.nBits, b.nAlgo, b.nMedianTimePast⟩

/-! ## Concrete inputs used by the examples -/

/-- A chain of `n` blocks, heights `n - 1` down to `0`, all with the timestamp
`5000`, the given bits and algorithm 0. -/
def flatTimeChain (n nBits : Nat) : List CBlockIndex :=
  (List.range n).reverse.map (fun h => ⟨h, 5000, nBits, 0, 5000⟩)

/-- A chain of 52 blocks: heights 51 down to 1 have algorithm 0 and bits
`0x1d00ffff`, the block at height 0 has algorithm 1 and the given bits. The
tip and its 50 nearest ancestors do not depend on `deepBits`. -/
def deepChain (deepBits : Nat) : List CBlockIndex :=
  (List.range 51).reverse.map
      (fun h => ⟨h + 1, 1300 + 300 * h, 0x1d00ffff, 0, ((1300 + 300 * h : Nat) : Int)⟩)
    ++ [⟨0, 1000, deepBits, 1, 1000⟩]

/-- Mainnet parameters: every algorithm has the floor `2 ^ 236 - 1`
(`~uint256(0) >> 20`), five algorithms, and an event-horizon test that never
fires. -/
def mainnetParams : ChainParams :=
  ⟨false, fun _ => 2 ^ 236 - 1, 5, fun _ _ _ => false⟩

/-- Testnet parameters, otherwise as `mainnetParams`. -/
def testnetParams : ChainParams :=
  ⟨true, fun _ => 2 ^ 236 - 1, 5, fun _ _ _ => false⟩

/-- A chain of `n` blocks, heights `n - 1` down to `0`, the tip first; block
`h` has timestamp `1000 + 300 * h`, the given bits and algorithm `h % 5`. -/
def sampleChain (n nBits : Nat) : List CBlockIndex :=
  (List.range n).reverse.map
    (fun h => ⟨h, 1000 + 300 * h, nBits, ((h % 5 : Nat) : Int), ((1000 + 300 * h : Nat) : Int)⟩)

/-- A genesis block whose bits `0x1e0ffff0` differ from the compact floor
`0x1e0fffff`. -/
def genesisBlock : CBlockIndex := ⟨0, 1389392876, 0x1e0ffff0, 0, 1389392876⟩

/-! ## Lemmas: chain traversal -/

theorem walkBack_eq_drop (l : List CBlockIndex) (n : Nat) : walkBack l n = l.drop n := by
  induction l generalizing n with
  | nil => cases n <;> rfl
  | cons b t ih =>
    cases n with
    | zero => rfl
    | succ k => simpa [walkBack] using ih k

theorem walkBack_eq_nil_iff (l : List CBlockIndex) (n : Nat) :
    walkBack l n = [] ↔ l.length ≤ n := by
  rw [walkBack_eq_drop]
  exact List.drop_eq_nil_iff

theorem lastForAlgo_eq_nil_iff (l : List CBlockIndex) (algo : Int) :
    GetLastBlockIndexForAlgo l algo = [] ↔ ∀ b ∈ l, b.nAlgo ≠ algo := by
  induction l with
  | nil => simp [GetLastBlockIndexForAlgo]
  | cons b t ih =>
    by_cases hb : b.nAlgo = algo
    · simp [GetLastBlockIndexForAlgo, hb]
    · simp [GetLastBlockIndexForAlgo, hb, ih]

theorem lastForAlgo_split (l : List CBlockIndex) (algo : Int) :
    ∃ skipped, l = skipped ++ GetLastBlockIndexForAlgo l algo ∧
      ∀ b ∈ skipped, b.nAlgo ≠ algo := by
  induction l with
  | nil => exact ⟨[], by simp [GetLastBlockIndexForAlgo]⟩
  | cons b t ih =>
    by_cases hb : b.nAlgo = algo
    · exact ⟨[], by simp [GetLastBlockIndexForAlgo, hb]⟩
    · obtain ⟨sk, hsk, hall⟩ := ih
      refine ⟨b :: sk, ?_, ?_⟩
      · simp only [GetLastBlockIndexForAlgo, hb, if_false, List.cons_append]
        exact congrArg (List.cons b) hsk
      · intro c hc
        rcases List.mem_cons.mp hc with rfl | hc
        · exact hb
        · exact hall c hc

theorem lastForAlgo_head (l : List CBlockIndex) (algo : Int) (b : CBlockIndex)
    (rest : List CBlockIndex) (h : GetLastBlockIndexForAlgo l algo = b :: rest) :
    b.nAlgo = algo := by
  induction l with
  | nil => simp [GetLastBlockIndexForAlgo] at h
  | cons c t ih =>
    by_cases hc : c.nAlgo = algo
    · simp only [GetLastBlockIndexForAlgo, hc, if_true] at h
      cases h
      exact hc
    · simp only [GetLastBlockIndexForAlgo, hc, if_false] at h
      exact ih h

theorem lastNonSpecialBits_mem (lim : Nat) (b : CBlockIndex) (rest : List CBlockIndex) :
    ∃ c ∈ b :: rest, lastNonSpecialBits lim b rest = c.nBits := by
  induction rest generalizing b with
  | nil => exact ⟨b, List.mem_cons_self _ _, rfl⟩
  | cons p t ih =>
    by_cases hc : (b.nHeight : Int) % nInterval ≠ 0 ∧ b.nBits = lim
    · obtain ⟨c, hmem, hbits⟩ := ih p
      refine ⟨c, List.mem_cons_of_mem _ hmem, ?_⟩
      rw [lastNonSpecialBits, if_pos hc]
      exact hbits
    · refine ⟨b, List.mem_cons_self _ _, ?_⟩
      rw [lastNonSpecialBits, if_neg hc]

/-! ## Lemmas: compact codec -/

theorem uint256_SetCompact_target_lt (nCompact : Nat) :
    (uint256.SetCompact nCompact).target + 1 < 2 ^ 256 := by
  have hw : nCompact % 2 ^ 23 < 2 ^ 23 := Nat.mod_lt _ (by norm_num)
  simp only [uint256.SetCompact]
  split
  · have h1 : nCompact % 2 ^ 23 / 256 ^ (3 - nCompact / 2 ^ 24) ≤ nCompact % 2 ^ 23 :=
      Nat.div_le_self _ _
    have h2 : (2 : Nat) ^ 23 + 1 < 2 ^ 256 := by norm_num
    omega
  · rename_i hs
    have hk : nCompact / 2 ^ 24 - 3 = (nCompact / 2 ^ 24 - 4) + 1 := by omega
    have hp : (256 : Nat) ^ (nCompact / 2 ^ 24 - 3) = 256 * 256 ^ (nCompact / 2 ^ 24 - 4) := by
      rw [hk]
      exact pow_succ' 256 _
    have hdvd : 256 ∣ (nCompact % 2 ^ 23 * 256 ^ (nCompact / 2 ^ 24 - 3)) % 2 ^ 256 := by
      rw [Nat.dvd_mod_iff (by norm_num : (256 : Nat) ∣ 2 ^ 256), hp]
      exact ⟨nCompact % 2 ^ 23 * 256 ^ (nCompact / 2 ^ 24 - 4), Nat.mul_left_comm _ _ _⟩
    have hlt : (nCompact % 2 ^ 23 * 256 ^ (nCompact / 2 ^ 24 - 3)) % 2 ^ 256 < 2 ^ 256 :=
      Nat.mod_lt _ (by norm_num)
    obtain ⟨q, hq⟩ := hdvd
    rw [hq] at hlt ⊢
    norm_num at hlt ⊢
    omega

theorem numBytesAux_zero (fuel : Nat) : numBytesAux fuel 0 = 0 := by
  cases fuel <;> simp [numBytesAux]

theorem numBytesAux_lt (fuel n : Nat) (h : n ≤ fuel) : n < 256 ^ numBytesAux fuel n := by
  induction fuel generalizing n with
  | zero =>
    have : n = 0 := by omega
    subst this
    simp [numBytesAux]
  | succ k ih =>
    by_cases hn : n = 0
    · subst hn
      simp [numBytesAux]
    · have hdiv : n / 256 ≤ k := by omega
      have := ih (n / 256) hdiv
      simp only [numBytesAux, hn, if_false, pow_succ]
      omega

theorem numBytes_lt (n : Nat) : n < 256 ^ numBytes n :=
  numBytesAux_lt n n (Nat.le_refl n)

/-- The mantissa taken by `GetCompact` before normalisation fits in 24 bits. -/
theorem mantissa_lt (m n : Nat) (h : m < 256 ^ n) :
    (if n ≤ 3 then m * 256 ^ (3 - n) else m / 256 ^ (n - 3)) < 2 ^ 24 := by
  split
  · rename_i hn
    have h3 : (256 : Nat) ^ 3 = 256 ^ n * 256 ^ (3 - n) := by
      rw [← pow_add]; congr 1; omega
    have hpos : 0 < (256 : Nat) ^ (3 - n) := pow_pos (by norm_num) _
    have : m * 256 ^ (3 - n) < 256 ^ n * 256 ^ (3 - n) := Nat.mul_lt_mul_of_pos_right h hpos
    have e : (2 : Nat) ^ 24 = 256 ^ 3 := by norm_num
    rw [e, h3]
    exact this
  · rename_i hn
    have h3 : (256 : Nat) ^ n = 2 ^ 24 * 256 ^ (n - 3) := by
      have e : (2 : Nat) ^ 24 = 256 ^ 3 := by norm_num
      rw [e, ← pow_add]; congr 1; omega
    rw [Nat.div_lt_iff_lt_mul (pow_pos (by norm_num) _), ← h3]
    exact h

/-- Decoding magnitude as a function of exponent and mantissa is monotone in
the exponent. -/
theorem decodeMag_mono (c s t : Nat) (h : s ≤ t) :
    (if s ≤ 3 then c / 256 ^ (3 - s) else c * 256 ^ (s - 3))
      ≤ (if t ≤ 3 then c / 256 ^ (3 - t) else c * 256 ^ (t - 3)) := by
  by_cases ht : t ≤ 3
  · have hs : s ≤ 3 := by omega
    rw [if_pos hs, if_pos ht]
    apply Nat.div_le_div_left
    · exact Nat.pow_le_pow_right (by norm_num) (by omega)
    · exact pow_pos (by norm_num) _
  · rw [if_neg ht]
    by_cases hs : s ≤ 3
    · rw [if_pos hs]
      calc c / 256 ^ (3 - s) ≤ c := Nat.div_le_self _ _
        _ ≤ c * 256 ^ (t - 3) := Nat.le_mul_of_pos_right _ (pow_pos (by norm_num) _)
    · rw [if_neg hs]
      exact Nat.mul_le_mul_left _ (Nat.pow_le_pow_right (by norm_num) (by omega))

/-- The normalised mantissa and exponent of `GetCompact` decode to at most
the magnitude encoded. -/
theorem normalised_le (m n : Nat) (h : m < 256 ^ n) (c0 : Nat)
    (hc0 : c0 = if n ≤ 3 then m * 256 ^ (3 - n) else m / 256 ^ (n - 3)) :
    (if (if (c0 / 2 ^ 23) % 2 = 1 then n + 1 else n) ≤ 3
      then (if (c0 / 2 ^ 23) % 2 = 1 then c0 / 256 else c0)
            / 256 ^ (3 - (if (c0 / 2 ^ 23) % 2 = 1 then n + 1 else n))
      else (if (c0 / 2 ^ 23) % 2 = 1 then c0 / 256 else c0)
            * 256 ^ ((if (c0 / 2 ^ 23) % 2 = 1 then n + 1 else n) - 3)) ≤ m := by
  by_cases hn : n ≤ 3
  · rw [if_pos hn] at hc0
    by_cases hsh : (c0 / 2 ^ 23) % 2 = 1
    · simp only [hsh, if_true]
      by_cases hn1 : n + 1 ≤ 3
      · rw [if_pos hn1, Nat.div_div_eq_div_mul]
        have e : 256 * 256 ^ (3 - (n + 1)) = 256 ^ (3 - n) := by
          rw [← pow_succ']; congr 1; omega
        rw [e, hc0, Nat.mul_div_cancel _ (pow_pos (by norm_num) _)]
      · rw [if_neg hn1]
        have hn3 : n = 3 := by omega
        subst hn3
        simp only [Nat.sub_self, pow_zero, Nat.mul_one] at hc0
        subst hc0
        norm_num
        exact Nat.div_mul_le_self _ _
    · simp only [hsh, if_false, hn, if_true]
      rw [hc0, Nat.mul_div_cancel _ (pow_pos (by norm_num) _)]
  · rw [if_neg hn] at hc0
    have hle : c0 * 256 ^ (n - 3) ≤ m := by
      rw [hc0]; exact Nat.div_mul_le_self _ _
    by_cases hsh : (c0 / 2 ^ 23) % 2 = 1
    · simp only [hsh, if_true]
      rw [if_neg (by omega)]
      have e : (256 : Nat) ^ (n + 1 - 3) = 256 * 256 ^ (n - 3) := by
        rw [← pow_succ']; congr 1; omega
      rw [e, ← Nat.mul_assoc]
      calc c0 / 256 * 256 * 256 ^ (n - 3) ≤ c0 * 256 ^ (n - 3) :=
            Nat.mul_le_mul_right _ (Nat.div_mul_le_self _ _)
        _ ≤ m := hle
    · simp only [hsh, if_false, hn]
      exact hle

theorem SetCompact_packed (c s : Nat) (hc : c < 2 ^ 23) :
    CBigNum.SetCompact ((c + s * 2 ^ 24) % 2 ^ 32)
      = ((if s % 256 ≤ 3 then c / 256 ^ (3 - s % 256) else c * 256 ^ (s % 256 - 3) : Nat) : Int) := by
  have h1 : (c + s * 2 ^ 24) % 2 ^ 32 / 2 ^ 24 = s % 256 := by
    norm_num at hc ⊢; omega
  have h2 : ¬ ((c + s * 2 ^ 24) % 2 ^ 32 / 2 ^ 23 % 2 = 1) := by
    norm_num at hc ⊢; omega
  have h3 : (c + s * 2 ^ 24) % 2 ^ 32 % 2 ^ 23 = c := by
    norm_num at hc ⊢; omega
  simp only [CBigNum.SetCompact, h1, h2, h3, if_false]

theorem SetCompact_packed_neg (c s : Nat) (hc : c < 2 ^ 23) :
    CBigNum.SetCompact ((c + s * 2 ^ 24 + 2 ^ 23) % 2 ^ 32)
      = -((if s % 256 ≤ 3 then c / 256 ^ (3 - s % 256) else c * 256 ^ (s % 256 - 3) : Nat) : Int) := by
  have h1 : (c + s * 2 ^ 24 + 2 ^ 23) % 2 ^ 32 / 2 ^ 24 = s % 256 := by
    norm_num at hc ⊢; omega
  have h2 : (c + s * 2 ^ 24 + 2 ^ 23) % 2 ^ 32 / 2 ^ 23 % 2 = 1 := by
    norm_num at hc ⊢; omega
  have h3 : (c + s * 2 ^ 24 + 2 ^ 23) % 2 ^ 32 % 2 ^ 23 = c := by
    norm_num at hc ⊢; omega
  simp only [CBigNum.SetCompact, h1, h2, h3, if_true]

/-- Encoding a number that is at most a non-negative bound and decoding the
result gives a number that is at most the bound: the encoding only drops
low-order bytes of the magnitude and keeps the sign. -/
theorem SetCompact_GetCompact_le (bn : Int) (L : Nat) (h : bn ≤ (L : Int)) :
    CBigNum.SetCompact (CBigNum.GetCompact bn) ≤ (L : Int) := by
  have hlt := mantissa_lt bn.natAbs (numBytes bn.natAbs) (numBytes_lt _)
  have hnorm := normalised_le bn.natAbs (numBytes bn.natAbs) (numBytes_lt _) _ rfl
  have hmono := decodeMag_mono
    (if (if numBytes bn.natAbs ≤ 3 then bn.natAbs * 256 ^ (3 - numBytes bn.natAbs)
          else bn.natAbs / 256 ^ (numBytes bn.natAbs - 3)) / 2 ^ 23 % 2 = 1
      then (if numBytes bn.natAbs ≤ 3 then bn.natAbs * 256 ^ (3 - numBytes bn.natAbs)
          else bn.natAbs / 256 ^ (numBytes bn.natAbs - 3)) / 256
      else (if numBytes bn.natAbs ≤ 3 then bn.natAbs * 256 ^ (3 - numBytes bn.natAbs)
          else bn.natAbs / 256 ^ (numBytes bn.natAbs - 3)))
    ((if (if numBytes bn.natAbs ≤ 3 then bn.natAbs * 256 ^ (3 - numBytes bn.natAbs)
          else bn.natAbs / 256 ^ (numBytes bn.natAbs - 3)) / 2 ^ 23 % 2 = 1
      then numBytes bn.natAbs + 1 else numBytes bn.natAbs) % 256)
    (if (if numBytes bn.natAbs ≤ 3 then bn.natAbs * 256 ^ (3 - numBytes bn.natAbs)
          else bn.natAbs / 256 ^ (numBytes bn.natAbs - 3)) / 2 ^ 23 % 2 = 1
      then numBytes bn.natAbs + 1 else numBytes bn.natAbs)
    (Nat.mod_le _ _)
  have hc1 : (if (if numBytes bn.natAbs ≤ 3 then bn.natAbs * 256 ^ (3 - numBytes bn.natAbs)
          else bn.natAbs / 256 ^ (numBytes bn.natAbs - 3)) / 2 ^ 23 % 2 = 1
      then (if numBytes bn.natAbs ≤ 3 then bn.natAbs * 256 ^ (3 - numBytes bn.natAbs)
          else bn.natAbs / 256 ^ (numBytes bn.natAbs - 3)) / 256
      else (if numBytes bn.natAbs ≤ 3 then bn.natAbs * 256 ^ (3 - numBytes bn.natAbs)
          else bn.natAbs / 256 ^ (numBytes bn.natAbs - 3))) < 2 ^ 23 := by
    generalize (if numBytes bn.natAbs ≤ 3 then bn.natAbs * 256 ^ (3 - numBytes bn.natAbs)
          else bn.natAbs / 256 ^ (numBytes bn.natAbs - 3)) = c0 at hlt ⊢
    norm_num at hlt ⊢
    split <;> omega
  by_cases hneg : bn < 0
  · simp only [CBigNum.GetCompact, hneg, if_true]
    rw [SetCompact_packed_neg _ _ hc1]
    omega
  · simp only [CBigNum.GetCompact, hneg, if_false]
    rw [SetCompact_packed _ _ hc1]
    have hm : ((bn.natAbs : Nat) : Int) = bn := Int.natAbs_of_nonneg (by omega)
    have := Nat.le_trans hmono hnorm
    omega

/-! ## Lemmas: chain work -/

theorem blockProof_arith (t : Nat) (h0 : t ≠ 0) (hlt : t + 1 < 2 ^ 256) :
    ((2 ^ 256 - 1 - t) / ((t + 1) % 2 ^ 256) + 1) % 2 ^ 256 = 2 ^ 256 / (t + 1) := by
  rw [Nat.mod_eq_of_lt hlt]
  have h1 : 2 ^ 256 - 1 - t = 2 ^ 256 - (t + 1) := by omega
  have h2 : (2 ^ 256 - (t + 1)) / (t + 1) + 1 = 2 ^ 256 / (t + 1) := by
    rw [← Nat.add_div_right _ (Nat.succ_pos t), Nat.sub_add_cancel (Nat.le_of_lt hlt)]
  rw [h1, h2]
  apply Nat.mod_eq_of_lt
  exact Nat.div_lt_self (by norm_num) (by omega)

theorem GetBlockProof_eq_reference (block : CBlockIndex) :
    GetBlockProof block = GetBlockProof_reference block := by
  simp only [GetBlockProof, GetBlockProof_reference]
  split
  · rfl
  · rename_i h
    have h0 : (uint256.SetCompact block.nBits).target ≠ 0 := fun h0 => h (Or.inr (Or.inr h0))
    exact blockProof_arith _ h0 (uint256_SetCompact_target_lt _)

/-! ## Lemmas: every engine stays within the floor -/

/-- A value returned by the Legacy engine decodes to at most the floor, when
the engine is not run on testnet from next height 135 on and, on mainnet
between boundaries from next height 135 on, the tip's bits decode to at most
the floor. -/
theorem Original_within_floor (P : ChainParams) (last : CBlockIndex)
    (pprev : List CBlockIndex) (pblock : CBlockHeader) (algo : Int)
    (hnotest : P.TestNet = true → (last.nHeight : Int) + 1 < 135)
    (htip : P.TestNet = false → ¬ ((last.nHeight : Int) + 1 < 135) →
      ((last.nHeight : Int) + 1) % nInterval ≠ 0 →
      CBigNum.SetCompact last.nBits ≤ (P.ProofOfWorkLimit algo : Int))
    (r : Nat) (h : GetNextWorkRequired_Original P (last :: pprev) pblock algo = some r) :
    CBigNum.SetCompact r ≤ (P.ProofOfWorkLimit algo : Int) := by
  have hfloor : CBigNum.SetCompact (CBigNum.GetCompact (P.ProofOfWorkLimit algo))
      ≤ (P.ProofOfWorkLimit algo : Int) := SetCompact_GetCompact_le _ _ (le_refl _)
  simp only [GetNextWorkRequired_Original] at h
  by_cases h1 : (last.nHeight : Int) + 1 < 135
  · rw [if_pos h1] at h
    cases h
    exact hfloor
  · rw [if_neg h1] at h
    by_cases h2 : ((last.nHeight : Int) + 1) % nInterval ≠ 0
    · rw [if_pos h2] at h
      by_cases ht : P.TestNet = true
      · exact absurd (hnotest ht) h1
      · rw [if_neg ht] at h
        cases h
        exact htip (by simpa using ht) h1 h2
    · rw [if_neg h2] at h
      split at h
      · cases h
      · cases h
        apply SetCompact_GetCompact_le
        split <;> omega

theorem Original_isSome (P : ChainParams) (last : CBlockIndex)
    (pprev : List CBlockIndex) (pblock : CBlockHeader) (algo : Int)
    (hlen : 8 ≤ pprev.length) :
    (GetNextWorkRequired_Original P (last :: pprev) pblock algo).isSome = true := by
  have hI : nInterval = 8 := by decide
  simp only [GetNextWorkRequired_Original]
  split
  · rfl
  · split
    · split
      · split <;> rfl
      · rfl
    · split
      · rename_i hw
        rw [walkBack_eq_nil_iff, hI] at hw
        simp only [List.length_cons] at hw
        split at hw <;> simp at hw <;> omega
      · rfl

theorem KGW_within_floor (P : ChainParams) (pindexLast : List CBlockIndex)
    (pblock : CBlockHeader) (algo : Int) :
    CBigNum.SetCompact (GetNextWorkRequired_KGW P pindexLast pblock algo)
      ≤ (P.ProofOfWorkLimit algo : Int) := by
  simp only [GetNextWorkRequired_KGW, KimotoGravityWell]
  split
  · exact SetCompact_GetCompact_le _ _ (le_refl _)
  · split
    · exact SetCompact_GetCompact_le _ _ (le_refl _)
    · apply SetCompact_GetCompact_le
      split <;> omega

theorem floor_or_within (X : Int) (L : Nat) :
    (if X > (L : Int) then some (CBigNum.GetCompact (L : Int)) else some (CBigNum.GetCompact X))
        = some (CBigNum.GetCompact (L : Int)) ∨
    ∃ Y : Int, Y ≤ (L : Int) ∧
      (if X > (L : Int) then some (CBigNum.GetCompact (L : Int)) else some (CBigNum.GetCompact X))
        = some (CBigNum.GetCompact Y) := by
  by_cases h : X > (L : Int)
  · exact Or.inl (if_pos h)
  · exact Or.inr ⟨X, by omega, if_neg h⟩

/-- On a non-null tip the Multi-Algo engine returns the compact floor or the
encoding of a number that is at most the floor. -/
theorem MULTI_shape (P : ChainParams) (last : CBlockIndex) (pprev : List CBlockIndex)
    (pblock : CBlockHeader) (algo : Int) :
    GetNextWorkRequiredMULTI P (last :: pprev) pblock algo
        = some (CBigNum.GetCompact (P.ProofOfWorkLimit algo : Int)) ∨
    ∃ Y : Int, Y ≤ (P.ProofOfWorkLimit algo : Int) ∧
      GetNextWorkRequiredMULTI P (last :: pprev) pblock algo = some (CBigNum.GetCompact Y) := by
  simp only [GetNextWorkRequiredMULTI]
  cases GetLastBlockIndexForAlgo (last :: pprev) algo with
  | nil => exact Or.inl rfl
  | cons prevAlgo _ =>
    cases walkBack (last :: pprev) (P.NUM_ALGOS * nAveragingInterval.toNat) with
    | nil => exact Or.inl rfl
    | cons first _ => exact floor_or_within _ _

theorem MULTI_within_floor (P : ChainParams) (last : CBlockIndex) (pprev : List CBlockIndex)
    (pblock : CBlockHeader) (algo : Int) (r : Nat)
    (h : GetNextWorkRequiredMULTI P (last :: pprev) pblock algo = some r) :
    CBigNum.SetCompact r ≤ (P.ProofOfWorkLimit algo : Int) := by
  rcases MULTI_shape P last pprev pblock algo with hs | ⟨Y, hY, hs⟩
  · rw [hs] at h
    cases h
    exact SetCompact_GetCompact_le _ _ (le_refl _)
  · rw [hs] at h
    cases h
    exact SetCompact_GetCompact_le _ _ hY

theorem MULTI_isSome (P : ChainParams) (last : CBlockIndex) (pprev : List CBlockIndex)
    (pblock : CBlockHeader) (algo : Int) :
    (GetNextWorkRequiredMULTI P (last :: pprev) pblock algo).isSome = true := by
  rcases MULTI_shape P last pprev pblock algo with hs | ⟨Y, _, hs⟩ <;> rw [hs] <;> rfl

/-- The dispatcher runs the Legacy engine only below next height 50 on
testnet and up to next height 5400 on mainnet. -/
theorem dispatch_cases_range (P : ChainParams) (last : CBlockIndex)
    (pprev : List CBlockIndex) (pblock : CBlockHeader) (algo : Int) :
    (GetNextWorkRequired P (last :: pprev) pblock algo
        = GetNextWorkRequired_Original P (last :: pprev) pblock algo ∧
      (P.TestNet = true → (last.nHeight : Int) + 1 < 50) ∧
      (P.TestNet = false → (last.nHeight : Int) + 1 ≤ 5400)) ∨
    GetNextWorkRequired P (last :: pprev) pblock algo
        = some (GetNextWorkRequired_KGW P (last :: pprev) pblock algo) ∨
    GetNextWorkRequired P (last :: pprev) pblock algo
        = GetNextWorkRequiredMULTI P (last :: pprev) pblock algo := by
  simp only [GetNextWorkRequired]
  by_cases ht : P.TestNet = true
  · by_cases h1 : (last.nHeight : Int) + 1 < 50
    · refine Or.inl ⟨?_, fun _ => h1, fun hf => ?_⟩
      · simp [ht, h1]
      · rw [ht] at hf
        cases hf
    · by_cases h2 : (last.nHeight : Int) + 1 < 100
      · exact Or.inr (Or.inl (by simp [ht, h1, h2]))
      · exact Or.inr (Or.inr (by simp [ht, h1, h2]))
  · by_cases h1 : (last.nHeight : Int) + 1 ≤ 5400
    · refine Or.inl ⟨?_, fun hf => absurd hf ht, fun _ => h1⟩
      simp [ht, h1]
    · by_cases h2 : (last.nHeight : Int) + 1 ≤ multiAlgoDiffChangeTarget
      · exact Or.inr (Or.inl (by simp [ht, h1, h2]))
      · exact Or.inr (Or.inr (by simp [ht, h1, h2]))

set_option maxRecDepth 100000

/-! ## Lemmas: engine values -/

theorem KGW_floor_of_low_height (P : ChainParams) (last : CBlockIndex)
    (pprev : List CBlockIndex) (pblock : CBlockHeader) (algo : Int)
    (h : last.nHeight < 144) :
    GetNextWorkRequired_KGW P (last :: pprev) pblock algo
      = CBigNum.GetCompact (P.ProofOfWorkLimit algo) := by
  have h144 : (60 * 60 * 24 / 2 / (5 * 60) : Nat) = 144 := by norm_num
  simp only [GetNextWorkRequired_KGW, KimotoGravityWell, h144]
  rw [if_pos (Or.inr h)]

theorem wellFormedChain_cons (b : CBlockIndex) (pprev : List CBlockIndex) :
    wellFormedChain (b :: pprev) = true ↔
      b.nHeight = pprev.length ∧ wellFormedChain pprev = true := by
  simp [wellFormedChain]

theorem blockProof_strict_arith (A x y : Nat) (hx : 0 < x) (hxy : x < y)
    (hgap : x * y ≤ A * (y - x)) : A / y < A / x := by
  have hy : 0 < y := by omega
  have h1 : A / y * y ≤ A := Nat.div_mul_le_self A y
  have key : (A / y + 1) * x ≤ A := by
    have h2 : (A / y + 1) * x * y ≤ A * y := by
      have e1 : (A / y + 1) * x * y = (A / y * y) * x + x * y := by ring
      have e2 : A * y = A * x + A * (y - x) := by
        rw [← Nat.mul_add]; congr 1; omega
      rw [e1, e2]
      exact Nat.add_le_add (Nat.mul_le_mul_right x h1) hgap
    exact Nat.le_of_mul_le_mul_right h2 hy
  exact (Nat.le_div_iff_mul_le hx).mpr key

/-- A compact value whose signed decode is positive and below `2 ^ 256`
decodes into a `uint256` without flags, to the same non-zero number. -/
theorem uint256_SetCompact_of_pos (nCompact : Nat)
    (hpos : 0 < CBigNum.SetCompact nCompact)
    (hlt : CBigNum.SetCompact nCompact < ((2 ^ 256 : Nat) : Int)) :
    (uint256.SetCompact nCompact).fNegative = false ∧
    (uint256.SetCompact nCompact).fOverflow = false ∧
    ((uint256.SetCompact nCompact).target : Int) = CBigNum.SetCompact nCompact := by
  have hsign : ¬ (nCompact / 2 ^ 23 % 2 = 1) := by
    intro hs
    simp only [CBigNum.SetCompact, hs, if_true] at hpos
    omega
  simp only [CBigNum.SetCompact, hsign, if_false] at hpos hlt
  simp only [CBigNum.SetCompact, hsign, if_false, uint256.SetCompact]
  by_cases hsz : nCompact / 2 ^ 24 ≤ 3
  · simp only [hsz, if_true] at hpos hlt ⊢
    refine ⟨?_, ?_, trivial⟩
    · simp [hsign]
    · simp only [decide_eq_false_iff_not]
      intro h
      rcases h.2 with h | ⟨_, h⟩ | ⟨_, h⟩ <;> omega
  · simp only [hsz, if_false] at hpos hlt ⊢
    have hlt' : nCompact % 2 ^ 23 * 256 ^ (nCompact / 2 ^ 24 - 3) < 2 ^ 256 := by exact_mod_cast hlt
    have hw : 0 < nCompact % 2 ^ 23 := by
      rcases Nat.eq_zero_or_pos (nCompact % 2 ^ 23) with h0 | h0
      · rw [h0] at hpos; simp at hpos
      · exact h0
    have e256 : (2 : Nat) ^ 256 = 256 ^ 32 := by norm_num
    refine ⟨?_, ?_, ?_⟩
    · simp [hsign]
    · have hno : ¬ (nCompact / 2 ^ 24 > 34 ∨
          (nCompact % 2 ^ 23 > 0xff ∧ nCompact / 2 ^ 24 > 33) ∨
          (nCompact % 2 ^ 23 > 0xffff ∧ nCompact / 2 ^ 24 > 32)) := by
        intro h
        have hge : 2 ^ 256 ≤ nCompact % 2 ^ 23 * 256 ^ (nCompact / 2 ^ 24 - 3) := by
          rcases h with h | ⟨hw1, h⟩ | ⟨hw1, h⟩
          · calc 2 ^ 256 = 1 * 256 ^ 32 := by norm_num
              _ ≤ nCompact % 2 ^ 23 * 256 ^ (nCompact / 2 ^ 24 - 3) :=
                Nat.mul_le_mul hw (Nat.pow_le_pow_right (by norm_num) (by omega))
          · calc 2 ^ 256 = 256 * 256 ^ 31 := by norm_num
              _ ≤ nCompact % 2 ^ 23 * 256 ^ (nCompact / 2 ^ 24 - 3) :=
                Nat.mul_le_mul (by omega) (Nat.pow_le_pow_right (by norm_num) (by omega))
          · calc 2 ^ 256 = 65536 * 256 ^ 30 := by norm_num
              _ ≤ nCompact % 2 ^ 23 * 256 ^ (nCompact / 2 ^ 24 - 3) :=
                Nat.mul_le_mul (by omega) (Nat.pow_le_pow_right (by norm_num) (by omega))
        omega
      simp only [decide_eq_false_iff_not]
      intro h
      exact hno h.2
    · rw [Nat.mod_eq_of_lt hlt']

theorem CheckProofOfWork_true_range (P : ChainParams) (hash nBits : Nat) (algo : Int)
    (h : CheckProofOfWork P hash nBits algo = true) :
    0 < CBigNum.SetCompact nBits ∧
      CBigNum.SetCompact nBits ≤ (P.ProofOfWorkLimit algo : Int) := by
  simp only [CheckProofOfWork] at h
  by_cases hr : CBigNum.SetCompact nBits ≤ 0 ∨
      CBigNum.SetCompact nBits > (P.ProofOfWorkLimit algo : Int)
  · rw [if_pos hr] at h
    cases h
  · constructor <;> omega

theorem walkBack_head (l : List CBlockIndex) (n : Nat) :
    (walkBack l n).head? = (l.take (n + 1))[n]? := by
  rw [walkBack_eq_drop, List.head?_drop, List.getElem?_take_of_lt (Nat.lt_succ_self n)]

theorem lastForAlgo_head_take (l : List CBlockIndex) (algo : Int) (m : Nat)
    (h : ∃ b ∈ l.take m, b.nAlgo = algo) :
    (GetLastBlockIndexForAlgo l algo).head?
      = (GetLastBlockIndexForAlgo (l.take m) algo).head? := by
  induction l generalizing m with
  | nil => simp at h
  | cons b t ih =>
    cases m with
    | zero => simp at h
    | succ k =>
      by_cases hb : b.nAlgo = algo
      · simp [GetLastBlockIndexForAlgo, hb]
      · have ht : ∃ c ∈ t.take k, c.nAlgo = algo := by
          obtain ⟨c, hc, hca⟩ := h
          rw [List.take_succ_cons] at hc
          rcases List.mem_cons.mp hc with rfl | hc
          · exact absurd hca hb
          · exact ⟨c, hc, hca⟩
        simp only [List.take_succ_cons, GetLastBlockIndexForAlgo, hb, if_false]
        exact ih k ht

/-- The Multi-Algo engine reads the chain only through the tip, the block the
window walk ends at and the block `GetLastBlockIndexForAlgo` returns. -/
theorem MULTI_congr (P : ChainParams) (last : CBlockIndex) (p1 p2 : List CBlockIndex)
    (pblock : CBlockHeader) (algo : Int)
    (hw : (walkBack (last :: p1) (P.NUM_ALGOS * nAveragingInterval.toNat)).head?
        = (walkBack (last :: p2) (P.NUM_ALGOS * nAveragingInterval.toNat)).head?)
    (ha : (GetLastBlockIndexForAlgo (last :: p1) algo).head?
        = (GetLastBlockIndexForAlgo (last :: p2) algo).head?) :
    GetNextWorkRequiredMULTI P (last :: p1) pblock algo
      = GetNextWorkRequiredMULTI P (last :: p2) pblock algo := by
  simp only [GetNextWorkRequiredMULTI]
  generalize walkBack (last :: p1) (P.NUM_ALGOS * nAveragingInterval.toNat) = w1 at hw
  generalize walkBack (last :: p2) (P.NUM_ALGOS * nAveragingInterval.toNat) = w2 at hw
  generalize GetLastBlockIndexForAlgo (last :: p1) algo = a1 at ha
  generalize GetLastBlockIndexForAlgo (last :: p2) algo = a2 at ha
  cases a1 with
  | nil =>
    cases a2 with
    | nil => rfl
    | cons y ys => simp at ha
  | cons x xs =>
    cases a2 with
    | nil => simp at ha
    | cons y ys =>
      simp only [List.head?_cons, Option.some.injEq] at ha
      subst ha
      cases w1 with
      | nil =>
        cases w2 with
        | nil => rfl
        | cons v vs => simp at hw
      | cons u us =>
        cases w2 with
        | nil => simp at hw
        | cons v vs =>
          simp only [List.head?_cons, Option.some.injEq] at hw
          subst hw
          rfl

theorem nAveragingTargetTimespan_eq : nAveragingTargetTimespan = 3050 := by decide

theorem nMinActualTimespanV4_eq : nMinActualTimespanV4 = 2806 := by decide

theorem nMaxActualTimespanV4_eq : nMaxActualTimespanV4 = 3538 := by decide

theorem nLocalTargetAdjustment_eq : nLocalTargetAdjustment = 4 := by decide

theorem nTargetTimespan_eq : nTargetTimespan = 4800 := by decide

theorem nInterval_eq : nInterval = 8 := by decide

/-- The two successive `if` statements that bound a timespan compute the
clamp. -/
theorem clamp_eq_ifs (x lo hi : Int) (h : lo ≤ hi) :
    (if (if x < lo then lo else x) > hi then hi else (if x < lo then lo else x))
      = clamp x lo hi := by
  unfold clamp
  by_cases h1 : x < lo
  · rw [if_pos h1]
    by_cases h2 : lo > hi
    · omega
    · rw [if_neg h2, min_eq_left (by omega), max_eq_left (by omega)]
  · rw [if_neg h1]
    by_cases h2 : x > hi
    · rw [if_pos h2, min_eq_right (by omega), max_eq_right h]
    · rw [if_neg h2, min_eq_left (by omega), max_eq_right (by omega)]

theorem min_eq_ifs (x : Int) (L : Int) : (if x > L then L else x) = min L x := by
  by_cases h : x > L
  · rw [if_pos h, min_eq_left (by omega)]
  · rw [if_neg h, min_eq_right (by omega)]

theorem repeatAdjust_eq_iterate (f : Int → Int) (n : Nat) (x : Int) :
    repeatAdjust f n x = Nat.iterate f n x := by
  induction n generalizing x with
  | zero => rfl
  | succ k ih => simp only [repeatAdjust, Function.iterate_succ_apply, ih]

theorem iterate_tdiv_eq_fdiv (a b : Int) (ha : 0 ≤ a) (hb : 0 ≤ b) (n : Nat) (x : Int)
    (hx : 0 ≤ x) :
    Nat.iterate (fun t => (t * a).tdiv b) n x = Nat.iterate (fun t => Int.fdiv (t * a) b) n x := by
  induction n generalizing x with
  | zero => rfl
  | succ k ih =>
    simp only [Function.iterate_succ_apply]
    have hxa : 0 ≤ x * a := Int.mul_nonneg hx ha
    rw [Int.fdiv_eq_tdiv hxa hb]
    exact ih _ (Int.tdiv_nonneg hxa hb)

theorem localCorrection_eq_floor (G n : Int) (hG : 0 ≤ G) :
    localCorrection G n = localCorrectionFloor G n := by
  unfold localCorrection localCorrectionFloor
  rw [iterate_tdiv_eq_fdiv 100 104 (by decide) (by decide) _ G hG,
    iterate_tdiv_eq_fdiv 104 100 (by decide) (by decide) _ G hG]

theorem walkBack_of_getElem? (l : List CBlockIndex) (n : Nat) (b : CBlockIndex)
    (h : l[n]? = some b) : ∃ rest, walkBack l n = b :: rest := by
  have hh := walkBack_head l n
  rw [List.getElem?_take_of_lt (Nat.lt_succ_self n), h] at hh
  cases hw : walkBack l n with
  | nil => rw [hw] at hh; simp at hh
  | cons c rest =>
    rw [hw] at hh
    simp only [List.head?_cons, Option.some.injEq] at hh
    exact ⟨rest, by rw [hh]⟩

theorem floor_fallback_eq (R L : Int) (a : Nat) :
    (if R > L then some a else some (CBigNum.GetCompact R))
      = some (if R ≤ L then CBigNum.GetCompact R else a) := by
  by_cases h : R > L
  · rw [if_pos h, if_neg (by omega)]
  · rw [if_neg h, if_pos (by omega)]

/-- The value of the Multi-Algo engine once both lookups have succeeded. -/
theorem MULTI_eq_of_lookups (P : ChainParams) (last : CBlockIndex) (pprev : List CBlockIndex)
    (pblock : CBlockHeader) (algo : Int) (prevAlgo first : CBlockIndex)
    (ra rf : List CBlockIndex)
    (hprev : GetLastBlockIndexForAlgo (last :: pprev) algo = prevAlgo :: ra)
    (hfirst : walkBack (last :: pprev) (P.NUM_ALGOS * 10) = first :: rf) :
    GetNextWorkRequiredMULTI P (last :: pprev) pblock algo
      = some (if localCorrection (multiGlobalTarget prevAlgo last first)
                  ((prevAlgo.nHeight : Int) + (P.NUM_ALGOS : Int) - 1 - (last.nHeight : Int))
                ≤ (P.ProofOfWorkLimit algo : Int)
              then CBigNum.GetCompact (localCorrection (multiGlobalTarget prevAlgo last first)
                  ((prevAlgo.nHeight : Int) + (P.NUM_ALGOS : Int) - 1 - (last.nHeight : Int)))
              else CBigNum.GetCompact (P.ProofOfWorkLimit algo : Int)) := by
  have h10 : nAveragingInterval.toNat = 10 := by decide
  simp only [GetNextWorkRequiredMULTI, h10, hprev, hfirst, nAveragingTargetTimespan_eq,
    nMinActualTimespanV4_eq, nMaxActualTimespanV4_eq, nLocalTargetAdjustment_eq,
    repeatAdjust_eq_iterate]
  rw [clamp_eq_ifs _ _ _ (by decide)]
  have e104 : (100 : Int) + 4 = 104 := by decide
  simp only [e104]
  exact floor_fallback_eq _ _ _

/-- The value of the Legacy engine at a retarget boundary from next height
135 on, when the block 8 links behind the tip exists. -/
theorem Original_retarget (P : ChainParams) (last : CBlockIndex) (pprev : List CBlockIndex)
    (pblock : CBlockHeader) (algo : Int) (start : CBlockIndex)
    (hb : (last.nHeight + 1) % 8 = 0) (h135 : 135 ≤ last.nHeight + 1)
    (hstart : pprev[7]? = some start) :
    GetNextWorkRequired_Original P (last :: pprev) pblock algo
      = some (CBigNum.GetCompact (min (P.ProofOfWorkLimit algo : Int) (legacyRetarget last start))) := by
  have h1 : ¬ ((last.nHeight : Int) + 1 < 135) := by omega
  have h2 : ¬ (((last.nHeight : Int) + 1) % nInterval ≠ 0) := by rw [nInterval_eq]; omega
  have h3 : (last.nHeight : Int) + 1 ≠ nInterval := by rw [nInterval_eq]; omega
  have h8 : nInterval.toNat = 8 := by decide
  have hmin : (nTargetTimespan * 50).tdiv 75 = 3200 := by decide
  have hmax : (nTargetTimespan * 75).tdiv 50 = 7200 := by decide
  obtain ⟨rf, hfirst⟩ := walkBack_of_getElem? (last :: pprev) 8 start
    ((List.getElem?_cons_succ).trans hstart)
  simp only [GetNextWorkRequired_Original]
  rw [if_neg h1, if_neg h2, if_pos h3, h8, hfirst]
  simp only [hmin, hmax, nTargetTimespan_eq]
  rw [clamp_eq_ifs _ _ _ (by decide), min_eq_ifs]
  rfl

theorem wellFormedChain_height (l : List CBlockIndex) (hwf : wellFormedChain l = true)
    (i : Nat) (b : CBlockIndex) (hb : l[i]? = some b) : b.nHeight + i + 1 = l.length := by
  induction l generalizing i with
  | nil => simp at hb
  | cons c t ih =>
    obtain ⟨hc, ht⟩ := (wellFormedChain_cons c t).mp hwf
    cases i with
    | zero =>
      simp only [List.getElem?_cons_zero, Option.some.injEq] at hb
      subst hb
      simp only [List.length_cons]
      omega
    | succ k =>
      rw [List.getElem?_cons_succ] at hb
      have := ih ht k hb
      simp only [List.length_cons]
      omega

/-! ### Kimoto Gravity Well loop -/

theorem blendFrom_append (a : Int) (i : Nat) (xs : List Int) (t : Int) :
    blendFrom a i (xs ++ [t]) = blendStep (blendFrom a i xs) (i + xs.length) t := by
  induction xs generalizing a i with
  | nil => rfl
  | cons x xs ih =>
    show blendFrom (blendStep a i x) (i + 1) (xs ++ [t]) = _
    rw [ih]
    simp only [blendFrom, List.length_cons]
    congr 1
    omega

theorem tdiv_between_nonneg (d : Int) (i : Int) (hd : 0 ≤ d) (hi : 0 < i) :
    0 ≤ d.tdiv i ∧ d.tdiv i ≤ d := by
  rw [Int.tdiv_eq_ediv hd (Int.le_of_lt hi)]
  exact ⟨Int.ediv_nonneg hd (Int.le_of_lt hi), Int.ediv_le_self i hd⟩

theorem tdiv_between_nonpos (d : Int) (i : Int) (hd : d ≤ 0) (hi : 0 < i) :
    d ≤ d.tdiv i ∧ d.tdiv i ≤ 0 := by
  have h := tdiv_between_nonneg (-d) i (by omega) hi
  rw [Int.neg_tdiv] at h
  constructor <;> omega

/-- One step of the blended average stays between the previous average and
the new target. -/
theorem blendStep_between (a t : Int) (i : Nat) (hi : 1 ≤ i) :
    min a t ≤ blendStep a i t ∧ blendStep a i t ≤ max a t := by
  unfold blendStep
  by_cases h1 : i = 1
  · rw [if_pos h1]
    exact ⟨min_le_right _ _, le_max_right _ _⟩
  · rw [if_neg h1]
    have hpos : (0 : Int) < (i : Int) := by omega
    rcases le_total 0 (t - a) with hd | hd
    · obtain ⟨h0, h2⟩ := tdiv_between_nonneg (t - a) i hd hpos
      constructor
      · exact le_trans (min_le_left _ _) (by omega)
      · exact le_trans (by omega) (le_max_right _ _)
    · obtain ⟨h0, h2⟩ := tdiv_between_nonpos (t - a) i hd hpos
      constructor
      · exact le_trans (min_le_right _ _) (by omega)
      · exact le_trans (by omega) (le_max_left _ _)

theorem blendFrom_le (hi : Int) (ts : List Int) (a : Int) (i : Nat) (h1 : 1 ≤ i)
    (ha : 1 < i → a ≤ hi) (hts : ∀ t ∈ ts, t ≤ hi) (hne : 1 < i ∨ ts ≠ []) :
    blendFrom a i ts ≤ hi := by
  induction ts generalizing a i with
  | nil =>
    rcases hne with h | h
    · exact ha h
    · exact absurd rfl h
  | cons t ts ih =>
    simp only [blendFrom]
    apply ih _ (i + 1) (by omega)
    · intro _
      have ht : t ≤ hi := hts t (List.mem_cons_self _ _)
      by_cases hi1 : i = 1
      · unfold blendStep
        rw [if_pos hi1]
        exact ht
      · exact le_trans (blendStep_between a t i h1).2 (max_le (ha (by omega)) ht)
    · intro u hu
      exact hts u (List.mem_cons_of_mem _ hu)
    · exact Or.inl (by omega)

theorem le_blendFrom (lo : Int) (ts : List Int) (a : Int) (i : Nat) (h1 : 1 ≤ i)
    (ha : 1 < i → lo ≤ a) (hts : ∀ t ∈ ts, lo ≤ t) (hne : 1 < i ∨ ts ≠ []) :
    lo ≤ blendFrom a i ts := by
  induction ts generalizing a i with
  | nil =>
    rcases hne with h | h
    · exact ha h
    · exact absurd rfl h
  | cons t ts ih =>
    simp only [blendFrom]
    apply ih _ (i + 1) (by omega)
    · intro _
      have ht : lo ≤ t := hts t (List.mem_cons_self _ _)
      by_cases hi1 : i = 1
      · unfold blendStep
        rw [if_pos hi1]
        exact ht
      · exact le_trans (le_min (ha (by omega)) ht) (blendStep_between a t i h1).1
    · intro u hu
      exact hts u (List.mem_cons_of_mem _ hu)
    · exact Or.inl (by omega)

theorem blendedAverage_between (blocks : List CBlockIndex) (hne : blocks ≠ []) (lo hi : Int)
    (hb : ∀ b ∈ blocks, lo ≤ CBigNum.SetCompact b.nBits ∧ CBigNum.SetCompact b.nBits ≤ hi) :
    lo ≤ blendedAverage (decodedTargets blocks) ∧
      blendedAverage (decodedTargets blocks) ≤ hi := by
  have hne' : decodedTargets blocks ≠ [] := by
    unfold decodedTargets
    simpa using hne
  have hmem : ∀ t ∈ decodedTargets blocks, lo ≤ t ∧ t ≤ hi := by
    intro t ht
    unfold decodedTargets at ht
    obtain ⟨b, hbm, rfl⟩ := List.mem_map.mp ht
    exact hb b hbm
  unfold blendedAverage
  exact ⟨le_blendFrom lo _ 0 1 (le_refl 1) (fun h => absurd h (by decide))
      (fun t ht => (hmem t ht).1) (Or.inr hne'),
    blendFrom_le hi _ 0 1 (le_refl 1) (fun h => absurd h (by decide))
      (fun t ht => (hmem t ht).2) (Or.inr hne')⟩

theorem KGWInvariant_init (last : CBlockIndex) (spacing : Nat) :
    KGWInvariant last spacing [] KGWState.init := by
  refine ⟨rfl, rfl, rfl, ?_, ?_⟩
  · simp [KGWState.init]
  · intro oldest h
    simp at h

/-- One executed iteration of the loop body re-establishes the invariant for
the sampled blocks extended by the block just read. -/
theorem KGWInvariant_step (last : CBlockIndex) (spacing : Nat) (pre : List CBlockIndex)
    (s : KGWState) (b : CBlockIndex) (hinv : KGWInvariant last spacing pre s) :
    KGWInvariant last spacing (pre ++ [b])
      ⟨s.PastBlocksMass + 1,
        if last.GetBlockTime - b.GetBlockTime < 0 then 0
          else last.GetBlockTime - b.GetBlockTime,
        ((spacing * (s.PastBlocksMass + 1) : Nat) : Int),
        if pre.length + 1 = 1 then CBigNum.SetCompact b.nBits
          else (CBigNum.SetCompact b.nBits - s.PastDifficultyAveragePrev).tdiv
                ((pre.length + 1 : Nat) : Int) + s.PastDifficultyAveragePrev,
        if pre.length + 1 = 1 then CBigNum.SetCompact b.nBits
          else (CBigNum.SetCompact b.nBits - s.PastDifficultyAveragePrev).tdiv
                ((pre.length + 1 : Nat) : Int) + s.PastDifficultyAveragePrev⟩ := by
  obtain ⟨hm, havg, hprev, _, _⟩ := hinv
  refine ⟨?_, ?_, rfl, ?_, ?_⟩
  · simp only [List.length_append, List.length_singleton, hm]
  · have e : decodedTargets (pre ++ [b]) = decodedTargets pre ++ [CBigNum.SetCompact b.nBits] := by
      simp [decodedTargets]
    have el : (decodedTargets pre).length = pre.length := by simp [decodedTargets]
    show _ = blendedAverage (decodedTargets (pre ++ [b]))
    rw [e]
    unfold blendedAverage
    rw [blendFrom_append, el, hprev, havg]
    unfold blendStep blendedAverage
    rw [Nat.add_comm 1 pre.length]
  · simp only [List.length_append, List.length_singleton, hm]
  · intro oldest ho
    rw [List.getLast?_concat] at ho
    cases ho
    show (if last.GetBlockTime - b.GetBlockTime < 0 then 0
          else last.GetBlockTime - b.GetBlockTime) = _
    by_cases h : last.GetBlockTime - b.GetBlockTime < 0
    · rw [if_pos h, max_eq_left (by omega)]
    · rw [if_neg h, max_eq_right (by omega)]

/-- The loop of `KimotoGravityWell`, entered after the blocks `pre` have been
read, reads some number `k` of further blocks and leaves the variables in the
state the invariant describes for all blocks read. The sample count does not
pass `PastBlocksMax`, and the first iteration is executed when its block has a
positive height and the counter has not passed `PastBlocksMax`. -/
theorem KGWLoop_spec (P : ChainParams) (last : CBlockIndex) (sp mn mx : Nat) :
    ∀ (rest pre : List CBlockIndex) (s : KGWState), KGWInvariant last sp pre s →
      ∃ k, k ≤ rest.length ∧
        KGWInvariant last sp (pre ++ rest.take k)
          (KGWLoop P last sp mn mx rest (pre.length + 1) s) ∧
        (mx > 0 → pre.length ≤ mx → pre.length + k ≤ mx) ∧
        (∀ b t, rest = b :: t → b.nHeight > 0 → ¬ (mx > 0 ∧ pre.length + 1 > mx) → 1 ≤ k) := by
  intro rest
  induction rest with
  | nil =>
    intro pre s hinv
    refine ⟨0, le_refl _, ?_, fun _ h => h, ?_⟩
    · simpa [KGWLoop] using hinv
    · intro b t h
      cases h
  | cons b t ih =>
    intro pre s hinv
    by_cases h0 : ¬ (b.nHeight > 0)
    · refine ⟨0, Nat.zero_le _, ?_, fun _ h => h, ?_⟩
      · have hL : KGWLoop P last sp mn mx (b :: t) (pre.length + 1) s = s := by
          simp only [KGWLoop]
          rw [if_pos h0]
        rw [hL]
        simpa using hinv
      · intro b' t' hbt hpos
        cases hbt
        exact absurd hpos h0
    · by_cases hmx : mx > 0 ∧ pre.length + 1 > mx
      · refine ⟨0, Nat.zero_le _, ?_, fun _ h => h, ?_⟩
        · have hL : KGWLoop P last sp mn mx (b :: t) (pre.length + 1) s = s := by
            simp only [KGWLoop]
            rw [if_neg h0, if_pos hmx]
          rw [hL]
          simpa using hinv
        · intro b' t' _ _ hn
          exact absurd hmx hn
      · have hstep := KGWInvariant_step last sp pre s b hinv
        have hbound : mx > 0 → pre.length + 1 ≤ mx := by
          intro hpos
          by_contra hc
          exact hmx ⟨hpos, by omega⟩
        by_cases hbr : s.PastBlocksMass + 1 ≥ mn ∧
            P.EventHorizon (s.PastBlocksMass + 1)
              (if last.GetBlockTime - b.GetBlockTime < 0 then 0
                else last.GetBlockTime - b.GetBlockTime)
              ((sp * (s.PastBlocksMass + 1) : Nat) : Int) = true
        · refine ⟨1, by simp, ?_, fun hpos _ => hbound hpos, fun _ _ _ _ _ => le_refl 1⟩
          simp only [KGWLoop]
          rw [if_neg h0, if_neg hmx, if_pos hbr]
          simpa using hstep
        · by_cases hemp : t.isEmpty = true
          · refine ⟨1, by simp, ?_, fun hpos _ => hbound hpos, fun _ _ _ _ _ => le_refl 1⟩
            simp only [KGWLoop]
            rw [if_neg h0, if_neg hmx, if_neg hbr, if_pos hemp]
            simpa using hstep
          · obtain ⟨k, hk, hinv', hmax, _⟩ := ih (pre ++ [b]) _ hstep
            have hlen : (pre ++ [b]).length = pre.length + 1 := by simp
            refine ⟨k + 1, by simpa using hk, ?_, ?_, fun _ _ _ _ _ => by omega⟩
            · simp only [KGWLoop]
              rw [if_neg h0, if_neg hmx, if_neg hbr, if_neg hemp]
              rw [hlen] at hinv'
              simpa using hinv'
            · intro hpos _
              have := hmax hpos (by rw [hlen]; exact hbound hpos)
              rw [hlen] at this
              omega

/-- The loop started on a chain from the initial variables: the number `N` of
blocks read and the state at exit. -/
theorem KGWLoop_from_init (P : ChainParams) (last : CBlockIndex) (sp mn mx : Nat)
    (chain : List CBlockIndex) :
    (KGWLoop P last sp mn mx chain 1 KGWState.init).PastBlocksMass ≤ chain.length ∧
    KGWInvariant last sp
      (chain.take (KGWLoop P last sp mn mx chain 1 KGWState.init).PastBlocksMass)
      (KGWLoop P last sp mn mx chain 1 KGWState.init) ∧
    (mx > 0 → (KGWLoop P last sp mn mx chain 1 KGWState.init).PastBlocksMass ≤ mx) ∧
    (∀ b t, chain = b :: t → b.nHeight > 0 →
      1 ≤ (KGWLoop P last sp mn mx chain 1 KGWState.init).PastBlocksMass) := by
  obtain ⟨k, hk, hinv, hmax, hfirst⟩ :=
    KGWLoop_spec P last sp mn mx chain [] KGWState.init (KGWInvariant_init last sp)
  simp only [List.nil_append, List.length_nil, Nat.zero_add] at hinv hmax hfirst
  have hN : (KGWLoop P last sp mn mx chain 1 KGWState.init).PastBlocksMass = k := by
    rw [hinv.1, List.length_take, Nat.min_eq_left hk]
  rw [hN]
  refine ⟨hk, hinv, fun hpos => hmax hpos (Nat.zero_le _), ?_⟩
  intro b t hbt hpos
  apply hfirst b t hbt hpos
  rintro ⟨h1, h2⟩
  omega

/-! ### The Multi-Algo engine does not read timestamps -/

theorem walkBack_map (f : CBlockIndex → CBlockIndex) (l : List CBlockIndex) (n : Nat) :
    walkBack (l.map f) n = (walkBack l n).map f := by
  rw [walkBack_eq_drop, walkBack_eq_drop, List.map_drop]

theorem lastForAlgo_map_withoutTime (l : List CBlockIndex) (algo : Int) :
    GetLastBlockIndexForAlgo (l.map withoutTime) algo
      = (GetLastBlockIndexForAlgo l algo).map withoutTime := by
  induction l with
  | nil => rfl
  | cons b t ih =>
    by_cases hb : b.nAlgo = algo
    · have hb' : (withoutTime b).nAlgo = algo := hb
      simp only [List.map_cons, GetLastBlockIndexForAlgo, hb, hb', if_true]
    · have hb' : ¬ (withoutTime b).nAlgo = algo := hb
      simp only [List.map_cons, GetLastBlockIndexForAlgo, hb, hb', if_false]
      exact ih

theorem MULTI_map_withoutTime (P : ChainParams) (l : List CBlockIndex)
    (pblock : CBlockHeader) (algo : Int) :
    GetNextWorkRequiredMULTI P (l.map withoutTime) pblock algo
      = GetNextWorkRequiredMULTI P l pblock algo := by
  cases l with
  | nil => rfl
  | cons last pprev =>
    have hw := walkBack_map withoutTime (last :: pprev) (P.NUM_ALGOS * nAveragingInterval.toNat)
    have ha := lastForAlgo_map_withoutTime (last :: pprev) algo
    simp only [List.map_cons] at hw ha
    simp only [List.map_cons, GetNextWorkRequiredMULTI, hw, ha]
    cases GetLastBlockIndexForAlgo (last :: pprev) algo with
    | nil => rfl
    | cons x xs =>
      cases walkBack (last :: pprev) (P.NUM_ALGOS * nAveragingInterval.toNat) with
      | nil => rfl
      | cons u us => rfl

theorem withoutTime_of_consensusFields (l1 l2 : List CBlockIndex)
    (h : l1.map consensusFields = l2.map consensusFields) :
    l1.map withoutTime = l2.map withoutTime := by
  have e : withoutTime = (fun q : Nat × Nat × Int × Int => (⟨q.1, 0, q.2.1, q.2.2.1, q.2.2.2⟩ : CBlockIndex))
      ∘ consensusFields := rfl
  rw [e, ← List.map_map, ← List.map_map, h]

/-- Two chains with the same first `n + 1` blocks, one of which has the
requested algorithm, give the same Multi-Algo result when `n` is the window
length. -/
theorem MULTI_eq_of_take_eq (P : ChainParams) (c1 c2 : List CBlockIndex)
    (pblock : CBlockHeader) (algo : Int)
    (hagree : c1.take (P.NUM_ALGOS * 10 + 1) = c2.take (P.NUM_ALGOS * 10 + 1))
    (hfound : ∃ b ∈ c1.take (P.NUM_ALGOS * 10 + 1), b.nAlgo = algo) :
    GetNextWorkRequiredMULTI P c1 pblock algo = GetNextWorkRequiredMULTI P c2 pblock algo := by
  have h10 : nAveragingInterval.toNat = 10 := by decide
  have hfound2 : ∃ b ∈ c2.take (P.NUM_ALGOS * 10 + 1), b.nAlgo = algo := by
    rw [← hagree]; exact hfound
  have ha : (GetLastBlockIndexForAlgo c1 algo).head? = (GetLastBlockIndexForAlgo c2 algo).head? := by
    rw [lastForAlgo_head_take c1 algo _ hfound, lastForAlgo_head_take c2 algo _ hfound2, hagree]
  have hw : (walkBack c1 (P.NUM_ALGOS * 10)).head? = (walkBack c2 (P.NUM_ALGOS * 10)).head? := by
    rw [walkBack_head, walkBack_head, hagree]
  cases c1 with
  | nil => simp at hfound
  | cons l1 p1 =>
    cases c2 with
    | nil => simp at hfound2
    | cons l2 p2 =>
      have hl : l1 = l2 := by
        simp only [List.take_succ_cons, List.cons.injEq] at hagree
        exact hagree.1
      subst hl
      exact MULTI_congr P l1 p1 p2 pblock algo (by rw [h10]; exact hw) ha

/-! ## Claims -/

/-- C1, counterexample: on mainnet the tip at height 136 (next height 137,
between two Legacy boundaries) carries bits `0x207fffff`; the dispatcher
returns these bits, and they decode to a target above the floor
`2 ^ 236 - 1`. -/
theorem C1_counterexample_tip_bits_above_floor :
    GetNextWorkRequired mainnetParams
        (⟨136, 41800, 0x207fffff, 1, 41800⟩ :: sampleChain 136 0x1e0fffff) ⟨42000⟩ 0
      = some 0x207fffff ∧
    CBigNum.SetCompact 0x207fffff = ((0x7fffff * 256 ^ 29 : Nat) : Int) ∧
    mainnetParams.ProofOfWorkLimit 0 = 2 ^ 236 - 1 ∧
    ¬ (CBigNum.SetCompact 0x207fffff ≤ (mainnetParams.ProofOfWorkLimit 0 : Int)) := by
  decide

/-- C1, amended: for every network mode, non-null tip, candidate header and
algorithm, every compact value returned by `GetNextWorkRequired` decodes (as a
signed `CBigNum`) to at most `ProofOfWorkLimit(algo)`, with one proviso and no
assumption on any other block: on mainnet, at a next height from 135 to 5400
that is not a multiple of 8, where the Legacy engine returns the tip's bits
unchanged, the tip's bits decode to at most `ProofOfWorkLimit(algo)`. A value
is returned whenever the tip has at least 8 predecessors. -/
theorem C1_next_target_within_floor (P : ChainParams) (last : CBlockIndex)
    (pprev : List CBlockIndex) (pblock : CBlockHeader) (algo : Int)
    (htip : P.TestNet = false → 135 ≤ last.nHeight + 1 → last.nHeight + 1 ≤ 5400 →
      (last.nHeight + 1) % 8 ≠ 0 →
      CBigNum.SetCompact last.nBits ≤ (P.ProofOfWorkLimit algo : Int)) :
    (8 ≤ pprev.length → (GetNextWorkRequired P (last :: pprev) pblock algo).isSome = true) ∧
    ∀ r, GetNextWorkRequired P (last :: pprev) pblock algo = some r →
      CBigNum.SetCompact r ≤ (P.ProofOfWorkLimit algo : Int) := by
  rcases dispatch_cases_range P last pprev pblock algo with ⟨hd, htest, hmain⟩ | hd | hd
  · rw [hd]
    refine ⟨Original_isSome P last pprev pblock algo, fun r h => ?_⟩
    apply Original_within_floor P last pprev pblock algo _ _ r h
    · intro ht
      have := htest ht
      omega
    · intro hf h1 h2
      have h5400 := hmain hf
      rw [nInterval_eq] at h2
      exact htip hf (by omega) (by omega) (by omega)
  · rw [hd]
    refine ⟨fun _ => rfl, fun r h => ?_⟩
    cases h
    exact KGW_within_floor P (last :: pprev) pblock algo
  · rw [hd]
    exact ⟨fun _ => MULTI_isSome P last pprev pblock algo,
      fun r h => MULTI_within_floor P last pprev pblock algo r h⟩

/-- C1, witness: mainnet tip at height 136 with bits `0x1d00ffff`, on a chain
whose other blocks carry bits `0x207fffff`, which decode above the floor. -/
theorem C1_next_target_within_floor_witness :
    GetNextWorkRequired mainnetParams
        (⟨136, 41800, 0x1d00ffff, 1, 41800⟩ :: sampleChain 136 0x207fffff) ⟨42000⟩ 0
      = some 0x1d00ffff ∧
    CBigNum.SetCompact 0x1d00ffff ≤ (mainnetParams.ProofOfWorkLimit 0 : Int) :=
  ⟨by decide,
    (C1_next_target_within_floor mainnetParams ⟨136, 41800, 0x1d00ffff, 1, 41800⟩
      (sampleChain 136 0x207fffff) ⟨42000⟩ 0
      (fun _ _ _ _ => by decide)).2 0x1d00ffff (by decide)⟩

/-- C2: for every hash, compact bits and algorithm id, `CheckProofOfWork`
returns true if and only if the decoded target satisfies
`0 < target <= ProofOfWorkLimit(algo)` and `hash <= target`; in every other
case it returns false. The floor `ProofOfWorkLimit(algo)` is a constant of the
program that the embedding takes as a parameter; `hfit` says that it is a
256-bit number, as the entries of the program's table are. -/
theorem C2_CheckProofOfWork_iff (P : ChainParams) (hash nBits : Nat) (algo : Int)
    (hfit : P.ProofOfWorkLimit algo < 2 ^ 256) :
    (CheckProofOfWork P hash nBits algo = true ↔
      (0 < CBigNum.SetCompact nBits ∧
        CBigNum.SetCompact nBits ≤ (P.ProofOfWorkLimit algo : Int) ∧
        (hash : Int) ≤ CBigNum.SetCompact nBits)) ∧
    (CheckProofOfWork P hash nBits algo = false ↔
      ¬ (0 < CBigNum.SetCompact nBits ∧
        CBigNum.SetCompact nBits ≤ (P.ProofOfWorkLimit algo : Int) ∧
        (hash : Int) ≤ CBigNum.SetCompact nBits)) := by
  have key : CheckProofOfWork P hash nBits algo = true ↔
      (0 < CBigNum.SetCompact nBits ∧
        CBigNum.SetCompact nBits ≤ (P.ProofOfWorkLimit algo : Int) ∧
        (hash : Int) ≤ CBigNum.SetCompact nBits) := by
    simp only [CheckProofOfWork]
    by_cases hr : CBigNum.SetCompact nBits ≤ 0 ∨
        CBigNum.SetCompact nBits > (P.ProofOfWorkLimit algo : Int)
    · rw [if_pos hr]
      constructor
      · intro h; cases h
      · rintro ⟨h1, h2, _⟩
        rcases hr with hr | hr <;> omega
    · rw [if_neg hr]
      have hpos : 0 < CBigNum.SetCompact nBits := by omega
      have hle : CBigNum.SetCompact nBits ≤ (P.ProofOfWorkLimit algo : Int) := by omega
      have hu : CBigNum.getuint256 (CBigNum.SetCompact nBits)
          = (CBigNum.SetCompact nBits).natAbs := by
        unfold CBigNum.getuint256
        apply Nat.mod_eq_of_lt
        omega
      rw [hu]
      by_cases hh : hash > (CBigNum.SetCompact nBits).natAbs
      · rw [if_pos hh]
        constructor
        · intro h; cases h
        · rintro ⟨_, _, h3⟩
          omega
      · rw [if_neg hh]
        exact ⟨fun _ => ⟨hpos, hle, by omega⟩, fun _ => rfl⟩
  refine ⟨key, ?_⟩
  rw [← key]
  cases CheckProofOfWork P hash nBits algo <;> simp

/-- C2, witness: mainnet floor `2 ^ 236 - 1`, bits `0x1d00ffff`, hash 5. -/
theorem C2_CheckProofOfWork_iff_witness :
    CheckProofOfWork mainnetParams 5 0x1d00ffff 0 = true ↔
      (0 < CBigNum.SetCompact 0x1d00ffff ∧
        CBigNum.SetCompact 0x1d00ffff ≤ (mainnetParams.ProofOfWorkLimit 0 : Int) ∧
        ((5 : Nat) : Int) ≤ CBigNum.SetCompact 0x1d00ffff) :=
  (C2_CheckProofOfWork_iff mainnetParams 5 0x1d00ffff 0 (by decide)).1

/-- C3: for every block, `GetBlockProof`, computed in 256-bit unsigned
arithmetic as `(~target / (target + 1)) + 1`, equals the reference value:
zero when the decode reports negative or overflow or yields target zero, and
otherwise exactly `2 ^ 256 / (target + 1)` rounded down. The divisor
`target + 1` never wraps to zero. -/
theorem C3_GetBlockProof_exact (block : CBlockIndex) :
    GetBlockProof block = GetBlockProof_reference block ∧
    ((uint256.SetCompact block.nBits).target + 1) % 2 ^ 256 ≠ 0 := by
  refine ⟨GetBlockProof_eq_reference block, ?_⟩
  rw [Nat.mod_eq_of_lt (uint256_SetCompact_target_lt _)]
  exact Nat.succ_ne_zero _

/-- C4, counterexample: bits `0` decode to target 0 and bits `0x03000001` to
target 1, both without flags, yet the first block's work is 0 and the
second's is `2 ^ 255`. -/
theorem C4_counterexample_zero_target :
    (uint256.SetCompact 0).fNegative = false ∧ (uint256.SetCompact 0).fOverflow = false ∧
    (uint256.SetCompact 0x03000001).fNegative = false ∧
    (uint256.SetCompact 0x03000001).fOverflow = false ∧
    (uint256.SetCompact 0).target < (uint256.SetCompact 0x03000001).target ∧
    GetBlockProof ⟨7, 3100, 0, 0, 3100⟩ = 0 ∧
    GetBlockProof ⟨7, 3100, 0x03000001, 0, 3100⟩ = 2 ^ 255 ∧
    ¬ (GetBlockProof ⟨7, 3100, 0, 0, 3100⟩ ≥ GetBlockProof ⟨7, 3100, 0x03000001, 0, 3100⟩) := by
  decide

/-- C4, amended: for every two blocks whose bits decode, without negative or
overflow flag, to targets with `0 < target1 < target2`, the work of the first
is at least the work of the second. -/
theorem C4_GetBlockProof_antitone (b1 b2 : CBlockIndex)
    (hn1 : (uint256.SetCompact b1.nBits).fNegative = false)
    (ho1 : (uint256.SetCompact b1.nBits).fOverflow = false)
    (hn2 : (uint256.SetCompact b2.nBits).fNegative = false)
    (ho2 : (uint256.SetCompact b2.nBits).fOverflow = false)
    (hpos : 0 < (uint256.SetCompact b1.nBits).target)
    (hlt : (uint256.SetCompact b1.nBits).target < (uint256.SetCompact b2.nBits).target) :
    GetBlockProof b1 ≥ GetBlockProof b2 := by
  rw [GetBlockProof_eq_reference, GetBlockProof_eq_reference]
  have h1 : (uint256.SetCompact b1.nBits).target ≠ 0 := by omega
  have h2 : (uint256.SetCompact b2.nBits).target ≠ 0 := by omega
  simp only [GetBlockProof_reference, hn1, ho1, hn2, ho2, h1, h2, Bool.false_eq_true,
    or_self, if_false]
  exact Nat.div_le_div_left (by omega) (by omega)

/-- C4, witness: bits `0x1c00ffff` against the larger target of
`0x1d00ffff`. -/
theorem C4_GetBlockProof_antitone_witness :
    GetBlockProof ⟨9, 3700, 0x1c00ffff, 0, 3700⟩ ≥ GetBlockProof ⟨9, 3700, 0x1d00ffff, 0, 3700⟩ :=
  C4_GetBlockProof_antitone ⟨9, 3700, 0x1c00ffff, 0, 3700⟩ ⟨9, 3700, 0x1d00ffff, 0, 3700⟩
    (by decide) (by decide) (by decide) (by decide) (by decide) (by decide)

/-- C5: `GetNextWorkRequired` selects the engine from the next height and the
testnet flag only. Mainnet: Legacy up to 5400, KGW up to 570000, Multi-Algo
beyond. Testnet: Legacy below 50, KGW below 100, Multi-Algo from 100. Next
height 5400 on mainnet is Legacy and 5401 is KGW. -/
theorem C5_dispatch_by_height (P : ChainParams) (last : CBlockIndex)
    (pprev : List CBlockIndex) (pblock : CBlockHeader) (algo : Int) :
    (P.TestNet = false →
      (last.nHeight + 1 ≤ 5400 →
        GetNextWorkRequired P (last :: pprev) pblock algo
          = GetNextWorkRequired_Original P (last :: pprev) pblock algo) ∧
      (5400 < last.nHeight + 1 → last.nHeight + 1 ≤ 570000 →
        GetNextWorkRequired P (last :: pprev) pblock algo
          = some (GetNextWorkRequired_KGW P (last :: pprev) pblock algo)) ∧
      (570000 < last.nHeight + 1 →
        GetNextWorkRequired P (last :: pprev) pblock algo
          = GetNextWorkRequiredMULTI P (last :: pprev) pblock algo) ∧
      (last.nHeight + 1 = 5400 →
        GetNextWorkRequired P (last :: pprev) pblock algo
          = GetNextWorkRequired_Original P (last :: pprev) pblock algo) ∧
      (last.nHeight + 1 = 5401 →
        GetNextWorkRequired P (last :: pprev) pblock algo
          = some (GetNextWorkRequired_KGW P (last :: pprev) pblock algo))) ∧
    (P.TestNet = true →
      (last.nHeight + 1 < 50 →
        GetNextWorkRequired P (last :: pprev) pblock algo
          = GetNextWorkRequired_Original P (last :: pprev) pblock algo) ∧
      (50 ≤ last.nHeight + 1 → last.nHeight + 1 < 100 →
        GetNextWorkRequired P (last :: pprev) pblock algo
          = some (GetNextWorkRequired_KGW P (last :: pprev) pblock algo)) ∧
      (100 ≤ last.nHeight + 1 →
        GetNextWorkRequired P (last :: pprev) pblock algo
          = GetNextWorkRequiredMULTI P (last :: pprev) pblock algo)) := by
  have key : ∀ c1 c2 : Prop, ∀ [Decidable c1] [Decidable c2], ∀ a b c : Option Nat,
      (if (if c1 then 1 else if c2 then 2 else 3 : Nat) = 1 then a
        else if (if c1 then 1 else if c2 then 2 else 3 : Nat) = 2 then b
        else if (if c1 then 1 else if c2 then 2 else 3 : Nat) = 3 then c else c)
      = if c1 then a else if c2 then b else c := by
    intro c1 c2 _ _ a b c
    by_cases h1 : c1 <;> by_cases h2 : c2 <;> simp [h1, h2]
  constructor
  · intro ht
    simp only [GetNextWorkRequired, ht, Bool.false_eq_true, if_false, key,
      multiAlgoDiffChangeTarget]
    refine ⟨?_, ?_, ?_, ?_, ?_⟩
    · intro h
      rw [if_pos (by omega)]
    · intro h1 h2
      rw [if_neg (by omega), if_pos (by omega)]
    · intro h
      rw [if_neg (by omega), if_neg (by omega)]
    · intro h
      rw [if_pos (by omega)]
    · intro h
      rw [if_neg (by omega), if_pos (by omega)]
  · intro ht
    simp only [GetNextWorkRequired, ht, if_true, key]
    refine ⟨?_, ?_, ?_⟩
    · intro h
      rw [if_pos (by omega)]
    · intro h1 h2
      rw [if_neg (by omega), if_pos (by omega)]
    · intro h
      rw [if_neg (by omega), if_neg (by omega)]

/-- C6, counterexample: on mainnet the tip at height 0 (next height 1, not a
multiple of 8) carries bits `0x1e0ffff0`, and the Legacy engine returns the
compact floor `0x1e0fffff` instead of the tip's bits. -/
theorem C6_counterexample_below_135 :
    mainnetParams.TestNet = false ∧ (genesisBlock.nHeight + 1) % 8 ≠ 0 ∧
    GetNextWorkRequired_Original mainnetParams [genesisBlock] ⟨1389393000⟩ 0 = some 0x1e0fffff ∧
    GetNextWorkRequired_Original mainnetParams [genesisBlock] ⟨1389393000⟩ 0
      ≠ some genesisBlock.nBits := by
  decide

/-- C6, amended: on mainnet, for every non-null tip whose next height is at
least 135 and not a multiple of 8, the Legacy engine returns exactly the
tip's bits, for every candidate header and algorithm. -/
theorem C6_legacy_returns_tip_bits (P : ChainParams) (last : CBlockIndex)
    (pprev : List CBlockIndex) (pblock : CBlockHeader) (algo : Int)
    (hmain : P.TestNet = false) (h135 : 135 ≤ last.nHeight + 1)
    (hnb : (last.nHeight + 1) % 8 ≠ 0) :
    GetNextWorkRequired_Original P (last :: pprev) pblock algo = some last.nBits := by
  have hI : nInterval = 8 := by decide
  have h1 : ¬ ((last.nHeight : Int) + 1 < 135) := by omega
  have h2 : ((last.nHeight : Int) + 1) % nInterval ≠ 0 := by rw [hI]; omega
  simp only [GetNextWorkRequired_Original, h1, h2, hmain, if_false, if_true, ne_eq,
    not_false_eq_true, Bool.false_eq_true]

/-- C6, witness: tip at height 136 on mainnet. -/
theorem C6_legacy_returns_tip_bits_witness :
    GetNextWorkRequired_Original mainnetParams
      (⟨136, 41800, 0x1d00ffff, 1, 41800⟩ :: sampleChain 136 0x1d00ffff) ⟨42000⟩ 0
      = some 0x1d00ffff :=
  C6_legacy_returns_tip_bits mainnetParams ⟨136, 41800, 0x1d00ffff, 1, 41800⟩
    (sampleChain 136 0x1d00ffff) ⟨42000⟩ 0 rfl (by decide) (by decide)

/-- C7: for a null tip and for every tip whose height is below the minimum
sample count 144, `GetNextWorkRequired_KGW` returns the compact encoding of
`ProofOfWorkLimit(algo)`, whatever the chain holds. -/
theorem C7_KGW_short_history_floor (P : ChainParams) (pindexLast : List CBlockIndex)
    (pblock : CBlockHeader) (algo : Int)
    (hshort : ∀ b, pindexLast.head? = some b → b.nHeight < 144) :
    GetNextWorkRequired_KGW P pindexLast pblock algo
      = CBigNum.GetCompact (P.ProofOfWorkLimit algo) := by
  cases pindexLast with
  | nil => rfl
  | cons last pprev =>
    have h := hshort last rfl
    have h144 : (60 * 60 * 24 / 2 / (5 * 60) : Nat) = 144 := by norm_num
    simp only [GetNextWorkRequired_KGW, KimotoGravityWell, h144]
    rw [if_pos (Or.inr h)]

/-- C7, witness: a tip at height 143 whose chain carries bits above the
floor. -/
theorem C7_KGW_short_history_floor_witness :
    GetNextWorkRequired_KGW mainnetParams (sampleChain 144 0x207fffff) ⟨50000⟩ 2
      = CBigNum.GetCompact (mainnetParams.ProofOfWorkLimit 2) :=
  C7_KGW_short_history_floor mainnetParams (sampleChain 144 0x207fffff) ⟨50000⟩ 2
    (by decide)

/-- C8: when the tip has fewer than `NUM_ALGOS * 10` predecessors, or no
block of the tip's chain (the tip included) has the requested algorithm,
`GetNextWorkRequiredMULTI` returns the compact encoding of
`ProofOfWorkLimit(algo)`. -/
theorem C8_MULTI_insufficient_history_floor (P : ChainParams) (last : CBlockIndex)
    (pprev : List CBlockIndex) (pblock : CBlockHeader) (algo : Int)
    (h : pprev.length < P.NUM_ALGOS * 10 ∨ ∀ b ∈ last :: pprev, b.nAlgo ≠ algo) :
    GetNextWorkRequiredMULTI P (last :: pprev) pblock algo
      = some (CBigNum.GetCompact (P.ProofOfWorkLimit algo)) := by
  have h10 : nAveragingInterval.toNat = 10 := by decide
  simp only [GetNextWorkRequiredMULTI, h10]
  rcases h with h | h
  · have hw : walkBack (last :: pprev) (P.NUM_ALGOS * 10) = [] := by
      rw [walkBack_eq_nil_iff]
      simpa using h
    rw [hw]
    cases GetLastBlockIndexForAlgo (last :: pprev) algo <;> rfl
  · have hl : GetLastBlockIndexForAlgo (last :: pprev) algo = [] :=
      (lastForAlgo_eq_nil_iff _ _).mpr h
    rw [hl]

/-- C8, witness: a tip with 20 predecessors when `NUM_ALGOS * 10 = 50`. -/
theorem C8_MULTI_insufficient_history_floor_witness :
    GetNextWorkRequiredMULTI mainnetParams
      (⟨20, 7000, 0x1d00ffff, 0, 7000⟩ :: sampleChain 20 0x1d00ffff) ⟨7100⟩ 0
      = some (CBigNum.GetCompact (mainnetParams.ProofOfWorkLimit 0)) :=
  C8_MULTI_insufficient_history_floor mainnetParams ⟨20, 7000, 0x1d00ffff, 0, 7000⟩
    (sampleChain 20 0x1d00ffff) ⟨7100⟩ 0 (Or.inl (by decide))

/-- C9: on testnet, when the next height is below 50 (the Legacy regime) and
the candidate's timestamp exceeds the tip's by more than 1200 seconds,
`GetNextWorkRequired` returns the compact encoding of
`ProofOfWorkLimit(algo)`, whatever bits the chain's blocks carry. -/
theorem C9_testnet_legacy_timeout_floor (P : ChainParams) (last : CBlockIndex)
    (pprev : List CBlockIndex) (pblock : CBlockHeader) (algo : Int)
    (htest : P.TestNet = true) (hlegacy : last.nHeight + 1 < 50)
    (_htime : pblock.nTime > last.nTime + 1200) :
    GetNextWorkRequired P (last :: pprev) pblock algo
      = some (CBigNum.GetCompact (P.ProofOfWorkLimit algo)) := by
  have h1 : (last.nHeight : Int) + 1 < 50 := by omega
  have h2 : (last.nHeight : Int) + 1 < 135 := by omega
  simp only [GetNextWorkRequired, GetNextWorkRequired_Original, htest, h1, h2, if_true]

/-- C9, witness: testnet tip at height 30, candidate 2000 seconds later. -/
theorem C9_testnet_legacy_timeout_floor_witness :
    GetNextWorkRequired testnetParams
      (⟨30, 10000, 0x1c00ffff, 0, 10000⟩ :: sampleChain 30 0x1d00ffff) ⟨12000⟩ 0
      = some (CBigNum.GetCompact (testnetParams.ProofOfWorkLimit 0)) :=
  C9_testnet_legacy_timeout_floor testnetParams ⟨30, 10000, 0x1c00ffff, 0, 10000⟩
    (sampleChain 30 0x1d00ffff) ⟨12000⟩ 0 rfl (by decide) (by decide)

/-- C10: `GetLastBlockIndexForAlgo` is a total function of a finite chain and
an algorithm id. The pointer it returns splits the chain into the blocks
stepped over, none of which has the algorithm, and the rest; a block returned
has the algorithm, so it is the nearest such block, the start included; the
result is null exactly when no block of the chain has the algorithm. -/
theorem C10_GetLastBlockIndexForAlgo_nearest (start : List CBlockIndex) (algo : Int) :
    (∃ skipped, start = skipped ++ GetLastBlockIndexForAlgo start algo ∧
        ∀ b ∈ skipped, b.nAlgo ≠ algo) ∧
    (∀ b rest, GetLastBlockIndexForAlgo start algo = b :: rest → b.nAlgo = algo) ∧
    (GetLastBlockIndexForAlgo start algo = [] ↔ ∀ b ∈ start, b.nAlgo ≠ algo) :=
  ⟨lastForAlgo_split start algo, fun b rest h => lastForAlgo_head start algo b rest h,
    lastForAlgo_eq_nil_iff start algo⟩

/-- C11, counterexample: a 20-block chain with heights 0..19, timestamps 300
seconds apart and bits `0x1d00ffff` everywhere. The mean of the decoded
targets (over all 20 blocks, or over the 19 blocks above the genesis block) is
`0xffff * 256 ^ 26`, below the floor, so the claimed value is `0x1d00ffff`;
`GetNextWorkRequired_KGW` returns the compact floor `0x1e0fffff`. -/
theorem C11_counterexample_twenty_blocks :
    (sampleChain 20 0x1d00ffff).length = 20 ∧
    wellFormedChain (sampleChain 20 0x1d00ffff) = true ∧
    constantSpacing 300 (sampleChain 20 0x1d00ffff) = true ∧
    meanTarget (sampleChain 20 0x1d00ffff) = ((0xffff * 256 ^ 26 : Nat) : Int) ∧
    meanTarget ((sampleChain 20 0x1d00ffff).take 19) = ((0xffff * 256 ^ 26 : Nat) : Int) ∧
    CBigNum.GetCompact (min (mainnetParams.ProofOfWorkLimit 0 : Int)
      (meanTarget (sampleChain 20 0x1d00ffff))) = 0x1d00ffff ∧
    GetNextWorkRequired_KGW mainnetParams (sampleChain 20 0x1d00ffff) ⟨7000⟩ 0 = 0x1e0fffff := by
  decide

/-- C11, amended: for every 20-block chain (heights 0..19) in which each
block's timestamp exceeds its predecessor's by exactly 300 seconds,
`GetNextWorkRequired_KGW` on the chain's tip returns the compact encoding of
`ProofOfWorkLimit(algo)`: the tip's height 19 is below the minimum sample
count 144, so no average is formed. -/
theorem C11_KGW_twenty_block_chain_floor (P : ChainParams) (chain : List CBlockIndex)
    (pblock : CBlockHeader) (algo : Int)
    (hlen : chain.length = 20) (hwf : wellFormedChain chain = true)
    (_hsp : constantSpacing 300 chain = true) :
    GetNextWorkRequired_KGW P chain pblock algo
      = CBigNum.GetCompact (P.ProofOfWorkLimit algo) := by
  cases chain with
  | nil => simp at hlen
  | cons last pprev =>
    have hh := ((wellFormedChain_cons last pprev).mp hwf).1
    simp only [List.length_cons] at hlen
    exact KGW_floor_of_low_height P last pprev pblock algo (by omega)

/-- C11, witness: the 20-block chain of the counterexample. -/
theorem C11_KGW_twenty_block_chain_floor_witness :
    GetNextWorkRequired_KGW mainnetParams (sampleChain 20 0x1d00ffff) ⟨7000⟩ 0
      = CBigNum.GetCompact (mainnetParams.ProofOfWorkLimit 0) :=
  C11_KGW_twenty_block_chain_floor mainnetParams (sampleChain 20 0x1d00ffff) ⟨7000⟩ 0
    (by decide) (by decide) (by decide)

/-- C12, counterexample: with `NUM_ALGOS * 10 = 50`, two 52-block chains agree
on the tip and on its 50 nearest ancestors, none of which has algorithm 1, and
differ only in the bits of the block 51 links behind the tip, which has
algorithm 1. `GetLastBlockIndexForAlgo` walks 51 links to that block, and the
engine returns `0x1c07541c` on one chain and `0x1b07541c` on the other. -/
theorem C12_counterexample_deep_algo_block :
    mainnetParams.NUM_ALGOS * 10 + 1 = 51 ∧
    (deepChain 0x1c00ffff).take 51 = (deepChain 0x1b00ffff).take 51 ∧
    (∀ b ∈ (deepChain 0x1c00ffff).take 51, b.nAlgo ≠ 1) ∧
    (GetLastBlockIndexForAlgo (deepChain 0x1c00ffff) 1).head?
      = some ⟨0, 1000, 0x1c00ffff, 1, 1000⟩ ∧
    (GetLastBlockIndexForAlgo (deepChain 0x1b00ffff) 1).head?
      = some ⟨0, 1000, 0x1b00ffff, 1, 1000⟩ ∧
    GetNextWorkRequiredMULTI mainnetParams (deepChain 0x1c00ffff) ⟨17000⟩ 1 = some 0x1c07541c ∧
    GetNextWorkRequiredMULTI mainnetParams (deepChain 0x1b00ffff) ⟨17000⟩ 1 = some 0x1b07541c := by
  decide

/-- C12, amended: `GetNextWorkRequiredMULTI` follows `NUM_ALGOS * 10`
predecessor links to the window start and, in `GetLastBlockIndexForAlgo`, as
many links as it takes to reach the most recent block of the requested
algorithm. For any two chains that agree on the tip and on its
`NUM_ALGOS * 10` nearest ancestors (height, bits, algo id and median-time-past
of each), and in which one of these blocks (the tip included) has the
requested algorithm, the returned compact target is the same, whatever the
blocks deeper in the chain contain. -/
theorem C12_MULTI_same_on_shared_window (P : ChainParams) (c1 c2 : List CBlockIndex)
    (pblock : CBlockHeader) (algo : Int)
    (hagree : (c1.take (P.NUM_ALGOS * 10 + 1)).map consensusFields
      = (c2.take (P.NUM_ALGOS * 10 + 1)).map consensusFields)
    (hfound : ∃ b ∈ c1.take (P.NUM_ALGOS * 10 + 1), b.nAlgo = algo) :
    GetNextWorkRequiredMULTI P c1 pblock algo = GetNextWorkRequiredMULTI P c2 pblock algo := by
  have htake : (c1.map withoutTime).take (P.NUM_ALGOS * 10 + 1)
      = (c2.map withoutTime).take (P.NUM_ALGOS * 10 + 1) := by
    rw [← List.map_take, ← List.map_take]
    exact withoutTime_of_consensusFields _ _ hagree
  have hfound' : ∃ b ∈ (c1.map withoutTime).take (P.NUM_ALGOS * 10 + 1), b.nAlgo = algo := by
    obtain ⟨b, hb, hba⟩ := hfound
    refine ⟨withoutTime b, ?_, hba⟩
    rw [← List.map_take]
    exact List.mem_map_of_mem _ hb
  have h := MULTI_eq_of_take_eq P (c1.map withoutTime) (c2.map withoutTime) pblock algo
    htake hfound'
  rw [MULTI_map_withoutTime, MULTI_map_withoutTime] at h
  exact h

/-- C12, witness: the two chains of the counterexample, asked for algorithm 0,
which the tip has. -/
theorem C12_MULTI_same_on_shared_window_witness :
    GetNextWorkRequiredMULTI mainnetParams (deepChain 0x1c00ffff) ⟨17000⟩ 0
      = GetNextWorkRequiredMULTI mainnetParams (deepChain 0x1b00ffff) ⟨17000⟩ 0 :=
  C12_MULTI_same_on_shared_window mainnetParams (deepChain 0x1c00ffff) (deepChain 0x1b00ffff)
    ⟨17000⟩ 0 (by decide) (by decide)

/-- C13, counterexample: mainnet (`NUM_ALGOS = 5`), a 60-block chain whose
blocks all carry the bits `0x01810000`, which decode to `-1`. The tip is at
height 59, the most recent block of algorithm 0 at height 55, the 50th
predecessor at height 9; `adjusted` is 3538. The claimed `T` is
`floor(-3538 / 3050) = -2`, with compact encoding `0x01820000`; the engine
divides toward zero, gets `-1` and returns `0x01810000`. -/
theorem C13_counterexample_negative_target :
    mainnetParams.NUM_ALGOS = 5 ∧
    (sampleChain 60 0x01810000).head? = some ⟨59, 18700, 0x01810000, 4, 18700⟩ ∧
    (sampleChain 60 0x01810000)[50]? = some ⟨9, 3700, 0x01810000, 4, 3700⟩ ∧
    (GetLastBlockIndexForAlgo (sampleChain 60 0x01810000) 0).head?
      = some ⟨55, 17500, 0x01810000, 0, 17500⟩ ∧
    CBigNum.SetCompact 0x01810000 = -1 ∧
    multiAdjustedTimespan ⟨59, 18700, 0x01810000, 4, 18700⟩ ⟨9, 3700, 0x01810000, 4, 3700⟩
      = 3538 ∧
    Int.fdiv (CBigNum.SetCompact 0x01810000 * 3538) 3050 = -2 ∧
    Int.fdiv (CBigNum.SetCompact 0x01810000 * 3538) 3050
      ≤ (mainnetParams.ProofOfWorkLimit 0 : Int) ∧
    CBigNum.GetCompact (Int.fdiv (CBigNum.SetCompact 0x01810000 * 3538) 3050) = 0x01820000 ∧
    GetNextWorkRequiredMULTI mainnetParams (sampleChain 60 0x01810000) ⟨19000⟩ 0
      = some 0x01810000 := by
  decide

/-- C13, amended: with `NUM_ALGOS = 5`, for every tip that has at least 50
predecessors and whose most recent block of the requested algorithm has
height `tip.height - 4`, `GetNextWorkRequiredMULTI` returns `compact(T)` when
`T <= ProofOfWorkLimit(algo)` and `compact(ProofOfWorkLimit(algo))` otherwise,
where `adjusted = clamp(3050 + (actual - 3050) / 4, 2806, 3538)` and
`T = decode(prevAlgo.nBits) * adjusted / 3050`, both divisions truncating
toward zero; `T` is the floor of the quotient whenever the decoded target is
non-negative. -/
theorem C13_MULTI_global_retarget (P : ChainParams) (last : CBlockIndex)
    (pprev : List CBlockIndex) (pblock : CBlockHeader) (algo : Int)
    (prevAlgo windowStart : CBlockIndex) (rest : List CBlockIndex)
    (hN : P.NUM_ALGOS = 5)
    (hstart : pprev[49]? = some windowStart)
    (hprev : GetLastBlockIndexForAlgo (last :: pprev) algo = prevAlgo :: rest)
    (hheight : prevAlgo.nHeight + 4 = last.nHeight) :
    GetNextWorkRequiredMULTI P (last :: pprev) pblock algo
      = some (if multiGlobalTarget prevAlgo last windowStart ≤ (P.ProofOfWorkLimit algo : Int)
              then CBigNum.GetCompact (multiGlobalTarget prevAlgo last windowStart)
              else CBigNum.GetCompact (P.ProofOfWorkLimit algo : Int)) ∧
    (0 ≤ CBigNum.SetCompact prevAlgo.nBits →
      multiGlobalTarget prevAlgo last windowStart
        = Int.fdiv (CBigNum.SetCompact prevAlgo.nBits * multiAdjustedTimespan last windowStart)
            3050) := by
  constructor
  · have h50 : (last :: pprev)[P.NUM_ALGOS * 10]? = some windowStart := by
      rw [hN]
      exact (List.getElem?_cons_succ).trans hstart
    obtain ⟨rf, hfirst⟩ := walkBack_of_getElem? _ _ _ h50
    rw [MULTI_eq_of_lookups P last pprev pblock algo prevAlgo windowStart rest rf hprev hfirst]
    have hn : (prevAlgo.nHeight : Int) + (P.NUM_ALGOS : Int) - 1 - (last.nHeight : Int) = 0 := by
      rw [hN]; omega
    have hc : localCorrection (multiGlobalTarget prevAlgo last windowStart) 0
        = multiGlobalTarget prevAlgo last windowStart := by
      unfold localCorrection
      rw [if_neg (by decide), if_neg (by decide)]
    rw [hn, hc]
  · intro hpos
    have hadj : 0 ≤ multiAdjustedTimespan last windowStart := by
      unfold multiAdjustedTimespan clamp
      exact le_trans (by decide) (le_max_left _ _)
    unfold multiGlobalTarget
    exact (Int.fdiv_eq_tdiv (Int.mul_nonneg hpos hadj) (by decide)).symm

/-- C13, witness: the 60-block mainnet chain with bits `0x1d00ffff`, asked
for algorithm 0. -/
theorem C13_MULTI_global_retarget_witness :
    GetNextWorkRequiredMULTI mainnetParams
        (⟨59, 18700, 0x1d00ffff, 4, 18700⟩ :: sampleChain 59 0x1d00ffff) ⟨19000⟩ 0
      = some 0x1d0128f4 ∧
    multiGlobalTarget ⟨55, 17500, 0x1d00ffff, 0, 17500⟩ ⟨59, 18700, 0x1d00ffff, 4, 18700⟩
        ⟨9, 3700, 0x1d00ffff, 4, 3700⟩
      ≤ (mainnetParams.ProofOfWorkLimit 0 : Int) ∧
    CBigNum.GetCompact (multiGlobalTarget ⟨55, 17500, 0x1d00ffff, 0, 17500⟩
        ⟨59, 18700, 0x1d00ffff, 4, 18700⟩ ⟨9, 3700, 0x1d00ffff, 4, 3700⟩) = 0x1d0128f4 :=
  ⟨((C13_MULTI_global_retarget mainnetParams ⟨59, 18700, 0x1d00ffff, 4, 18700⟩
      (sampleChain 59 0x1d00ffff) ⟨19000⟩ 0 ⟨55, 17500, 0x1d00ffff, 0, 17500⟩
      ⟨9, 3700, 0x1d00ffff, 4, 3700⟩ (sampleChain 55 0x1d00ffff)
      rfl (by decide) (by decide) (by decide)).1).trans (by decide),
    by decide, by decide⟩

/-- C14, counterexample: the 60-block chain with bits `0x01810000` (decoding
to `-1`), asked for the tip's own algorithm 4, so `n = 4`. The global target
is `G = -1`. Four applications of `t -> floor(t * 100 / 104)` leave `-1`, with
compact encoding `0x01810000`; the engine divides toward zero, reaches `0`
after the first step and returns the compact value `0`. -/
theorem C14_counterexample_negative_target :
    (sampleChain 60 0x01810000).head? = some ⟨59, 18700, 0x01810000, 4, 18700⟩ ∧
    (sampleChain 60 0x01810000)[mainnetParams.NUM_ALGOS * 10]?
      = some ⟨9, 3700, 0x01810000, 4, 3700⟩ ∧
    (GetLastBlockIndexForAlgo (sampleChain 60 0x01810000) 4).head?
      = some ⟨59, 18700, 0x01810000, 4, 18700⟩ ∧
    ((59 : Int) + (mainnetParams.NUM_ALGOS : Int) - 1 - 59 = 4) ∧
    multiGlobalTarget ⟨59, 18700, 0x01810000, 4, 18700⟩ ⟨59, 18700, 0x01810000, 4, 18700⟩
      ⟨9, 3700, 0x01810000, 4, 3700⟩ = -1 ∧
    localCorrectionFloor (-1) 4 = -1 ∧
    localCorrectionFloor (-1) 4 ≤ (mainnetParams.ProofOfWorkLimit 4 : Int) ∧
    CBigNum.GetCompact (localCorrectionFloor (-1) 4) = 0x01810000 ∧
    localCorrection (-1) 4 = 0 ∧
    GetNextWorkRequiredMULTI mainnetParams (sampleChain 60 0x01810000) ⟨19000⟩ 4 = some 0 := by
  decide

/-- C14, amended: in `GetNextWorkRequiredMULTI`, with `G` the target after the
global retarget and `n = prevAlgo.height + NUM_ALGOS - 1 - tip.height`: if
`n > 0` the map `t -> t * 100 / 104` is applied exactly `n` times to `G`, if
`n < 0` the map `t -> t * 104 / 100` is applied exactly `-n` times, if `n = 0`
the target stays `G`, every division truncating toward zero (the floor
whenever `G` is non-negative). The value returned is the compact encoding of
the result when it does not exceed `ProofOfWorkLimit(algo)`, and the compact
encoding of `ProofOfWorkLimit(algo)` otherwise. -/
theorem C14_MULTI_local_correction (P : ChainParams) (last : CBlockIndex)
    (pprev : List CBlockIndex) (pblock : CBlockHeader) (algo : Int)
    (prevAlgo windowStart : CBlockIndex) (rest : List CBlockIndex)
    (hstart : (last :: pprev)[P.NUM_ALGOS * 10]? = some windowStart)
    (hprev : GetLastBlockIndexForAlgo (last :: pprev) algo = prevAlgo :: rest) :
    GetNextWorkRequiredMULTI P (last :: pprev) pblock algo
      = some (if localCorrection (multiGlobalTarget prevAlgo last windowStart)
                  ((prevAlgo.nHeight : Int) + (P.NUM_ALGOS : Int) - 1 - (last.nHeight : Int))
                ≤ (P.ProofOfWorkLimit algo : Int)
              then CBigNum.GetCompact (localCorrection (multiGlobalTarget prevAlgo last windowStart)
                  ((prevAlgo.nHeight : Int) + (P.NUM_ALGOS : Int) - 1 - (last.nHeight : Int)))
              else CBigNum.GetCompact (P.ProofOfWorkLimit algo : Int)) ∧
    (0 ≤ multiGlobalTarget prevAlgo last windowStart →
      localCorrection (multiGlobalTarget prevAlgo last windowStart)
          ((prevAlgo.nHeight : Int) + (P.NUM_ALGOS : Int) - 1 - (last.nHeight : Int))
        = localCorrectionFloor (multiGlobalTarget prevAlgo last windowStart)
          ((prevAlgo.nHeight : Int) + (P.NUM_ALGOS : Int) - 1 - (last.nHeight : Int))) := by
  obtain ⟨rf, hfirst⟩ := walkBack_of_getElem? _ _ _ hstart
  exact ⟨MULTI_eq_of_lookups P last pprev pblock algo prevAlgo windowStart rest rf hprev hfirst,
    fun hG => localCorrection_eq_floor _ _ hG⟩

/-- C14, witness: the 60-block mainnet chain with bits `0x1d00ffff`, asked
for the tip's algorithm 4 (`n = 4`, four tightening steps). -/
theorem C14_MULTI_local_correction_witness :
    GetNextWorkRequiredMULTI mainnetParams
        (⟨59, 18700, 0x1d00ffff, 4, 18700⟩ :: sampleChain 59 0x1d00ffff) ⟨19000⟩ 4
      = some (CBigNum.GetCompact (localCorrection
          (multiGlobalTarget ⟨59, 18700, 0x1d00ffff, 4, 18700⟩ ⟨59, 18700, 0x1d00ffff, 4, 18700⟩
            ⟨9, 3700, 0x1d00ffff, 4, 3700⟩) 4)) :=
  ((C14_MULTI_local_correction mainnetParams ⟨59, 18700, 0x1d00ffff, 4, 18700⟩
      (sampleChain 59 0x1d00ffff) ⟨19000⟩ 4 ⟨59, 18700, 0x1d00ffff, 4, 18700⟩
      ⟨9, 3700, 0x1d00ffff, 4, 3700⟩ (sampleChain 59 0x1d00ffff)
      (by decide) rfl).1).trans (by decide)

/-- C15, counterexample: a 136-block mainnet chain whose blocks carry the bits
`0x01810000`, decoding to `-1`. The tip is at height 135 (next height 136, a
multiple of 8), the block 8 links behind it is 2400 seconds older, so the
clamped timespan is 3200. The claimed value is
`min(floor, floor(-3200 / 4800)) = -1`, with compact encoding `0x01810000`;
the engine divides toward zero, gets `0` and returns the compact value `0`. -/
theorem C15_counterexample_negative_target :
    (sampleChain 136 0x01810000).head? = some ⟨135, 41500, 0x01810000, 0, 41500⟩ ∧
    (sampleChain 136 0x01810000)[8]? = some ⟨127, 39100, 0x01810000, 2, 39100⟩ ∧
    (135 + 1) % 8 = 0 ∧
    CBigNum.SetCompact 0x01810000 = -1 ∧
    clamp ((41500 : Int) - 39100) 3200 7200 = 3200 ∧
    Int.fdiv (CBigNum.SetCompact 0x01810000 * clamp ((41500 : Int) - 39100) 3200 7200) 4800
      = -1 ∧
    CBigNum.GetCompact (min (mainnetParams.ProofOfWorkLimit 0 : Int)
      (Int.fdiv (CBigNum.SetCompact 0x01810000 * clamp ((41500 : Int) - 39100) 3200 7200) 4800))
      = 0x01810000 ∧
    GetNextWorkRequired_Original mainnetParams (sampleChain 136 0x01810000) ⟨42000⟩ 0
      = some 0 := by
  decide

/-- C15, amended: for every tip whose next height is a multiple of 8 and at
least 135 and that has at least 8 predecessors, on either network,
`GetNextWorkRequired_Original` returns
`compact(min(ProofOfWorkLimit(algo), decode(tip.nBits) * clamp(tip.time -
start.time, 3200, 7200) / 4800))`, the division truncating toward zero (the
floor whenever the decoded target is non-negative), where `start` is the block
exactly 8 predecessors behind the tip. -/
theorem C15_legacy_retarget_value (P : ChainParams) (last : CBlockIndex)
    (pprev : List CBlockIndex) (pblock : CBlockHeader) (algo : Int) (start : CBlockIndex)
    (hb : (last.nHeight + 1) % 8 = 0) (h135 : 135 ≤ last.nHeight + 1)
    (hstart : pprev[7]? = some start) :
    GetNextWorkRequired_Original P (last :: pprev) pblock algo
      = some (CBigNum.GetCompact
          (min (P.ProofOfWorkLimit algo : Int) (legacyRetarget last start))) ∧
    (0 ≤ CBigNum.SetCompact last.nBits →
      legacyRetarget last start
        = Int.fdiv (CBigNum.SetCompact last.nBits
            * clamp (last.GetBlockTime - start.GetBlockTime) 3200 7200) 4800) := by
  refine ⟨Original_retarget P last pprev pblock algo start hb h135 hstart, fun hpos => ?_⟩
  have hc : 0 ≤ clamp (last.GetBlockTime - start.GetBlockTime) 3200 7200 := by
    unfold clamp
    exact le_trans (by decide) (le_max_left _ _)
  unfold legacyRetarget
  exact (Int.fdiv_eq_tdiv (Int.mul_nonneg hpos hc) (by decide)).symm

/-- C15, witness: the 136-block mainnet chain with bits `0x1d00ffff`. -/
theorem C15_legacy_retarget_value_witness :
    GetNextWorkRequired_Original mainnetParams
        (⟨135, 41500, 0x1d00ffff, 0, 41500⟩ :: sampleChain 135 0x1d00ffff) ⟨42000⟩ 0
      = some 0x1d00aaaa :=
  ((C15_legacy_retarget_value mainnetParams ⟨135, 41500, 0x1d00ffff, 0, 41500⟩
      (sampleChain 135 0x1d00ffff) ⟨42000⟩ 0 ⟨127, 39100, 0x1d00ffff, 2, 39100⟩
      (by decide) (by decide) (by decide)).1).trans (by decide)

/-- C16, counterexample, in two parts. First, a 145-block mainnet chain whose
blocks all have the timestamp 5000 and the bits `0x1d00ffff`: the loop samples
`N = 144` blocks, the elapsed time is 0 and the blended average is
`0xffff * 256 ^ 26`; the claimed value is
`compact(min(floor, floor(avg * 0 / (300 * 144)))) = 0`, while the engine
skips the scaling when the elapsed time is zero and returns the encoding
`0x1d00ffff` of the average. Second, a 145-block chain with blocks 300 seconds
apart and the bits `0x01810000`, which decode to `-1`: the average is `-1` and
the elapsed time 42900; the claimed value is
`compact(floor(-42900 / 43200)) = compact(-1) = 0x01810000`, while the engine
divides toward zero and returns the compact value `0`. -/
theorem C16_counterexample_zero_elapsed :
    ((flatTimeChain 145 0x1d00ffff).head? = some ⟨144, 5000, 0x1d00ffff, 0, 5000⟩ ∧
      (KGWLoop mainnetParams ⟨144, 5000, 0x1d00ffff, 0, 5000⟩ 300 144 4032
        (flatTimeChain 145 0x1d00ffff) 1 KGWState.init).PastBlocksMass = 144 ∧
      (KGWLoop mainnetParams ⟨144, 5000, 0x1d00ffff, 0, 5000⟩ 300 144 4032
        (flatTimeChain 145 0x1d00ffff) 1 KGWState.init).PastRateActualSeconds = 0 ∧
      blendedAverage (decodedTargets ((flatTimeChain 145 0x1d00ffff).take 144))
        = ((0xffff * 256 ^ 26 : Nat) : Int) ∧
      CBigNum.GetCompact (min (mainnetParams.ProofOfWorkLimit 0 : Int)
        (Int.fdiv (blendedAverage (decodedTargets ((flatTimeChain 145 0x1d00ffff).take 144)) * 0)
          (300 * 144))) = 0 ∧
      KimotoGravityWell mainnetParams (flatTimeChain 145 0x1d00ffff) ⟨5000⟩ 300 144 4032 0
        = 0x1d00ffff ∧
      GetNextWorkRequired_KGW mainnetParams (flatTimeChain 145 0x1d00ffff) ⟨5000⟩ 0
        = 0x1d00ffff) ∧
    ((sampleChain 145 0x01810000).head? = some ⟨144, 44200, 0x01810000, 4, 44200⟩ ∧
      (KGWLoop mainnetParams ⟨144, 44200, 0x01810000, 4, 44200⟩ 300 144 4032
        (sampleChain 145 0x01810000) 1 KGWState.init).PastBlocksMass = 144 ∧
      (KGWLoop mainnetParams ⟨144, 44200, 0x01810000, 4, 44200⟩ 300 144 4032
        (sampleChain 145 0x01810000) 1 KGWState.init).PastRateActualSeconds = 42900 ∧
      blendedAverage (decodedTargets ((sampleChain 145 0x01810000).take 144)) = -1 ∧
      CBigNum.GetCompact (min (mainnetParams.ProofOfWorkLimit 0 : Int)
        (Int.fdiv (blendedAverage (decodedTargets ((sampleChain 145 0x01810000).take 144))
          * 42900) (300 * 144))) = 0x01810000 ∧
      KimotoGravityWell mainnetParams (sampleChain 145 0x01810000) ⟨44500⟩ 300 144 4032 0
        = 0) := by
  decide

/-- C16, amended: for every tip with height at least 144, with `N` the sample
count the loop stops at, `1 <= N <= 4032`, `KimotoGravityWell` returns
`compact(min(ProofOfWorkLimit(algo), scaled))`, where `avg` is the blended
average of the `N` sampled targets, `elapsed = max(0, tip.time - time of the
oldest sampled block)`, and `scaled = avg * elapsed / (300 * N)` with the
division truncating toward zero (the floor whenever `avg` is non-negative)
when `elapsed` is not zero, and `scaled = avg` when `elapsed = 0`. -/
theorem C16_KGW_scaled_blended_average (P : ChainParams) (last : CBlockIndex)
    (pprev : List CBlockIndex) (pblock : CBlockHeader) (algo : Int)
    (h144 : 144 ≤ last.nHeight) :
    ∃ N oldest,
      N = (KGWLoop P last 300 144 4032 (last :: pprev) 1 KGWState.init).PastBlocksMass ∧
      1 ≤ N ∧ N ≤ 4032 ∧ N ≤ (last :: pprev).length ∧
      ((last :: pprev).take N).getLast? = some oldest ∧
      KimotoGravityWell P (last :: pprev) pblock 300 144 4032 algo
        = CBigNum.GetCompact (min (P.ProofOfWorkLimit algo : Int)
            (kgwScaledTarget (blendedAverage (decodedTargets ((last :: pprev).take N)))
              (max 0 (last.GetBlockTime - oldest.GetBlockTime)) N)) ∧
      GetNextWorkRequired_KGW P (last :: pprev) pblock algo
        = KimotoGravityWell P (last :: pprev) pblock 300 144 4032 algo ∧
      (0 ≤ blendedAverage (decodedTargets ((last :: pprev).take N)) →
        (blendedAverage (decodedTargets ((last :: pprev).take N))
            * max 0 (last.GetBlockTime - oldest.GetBlockTime)).tdiv (300 * (N : Int))
          = Int.fdiv (blendedAverage (decodedTargets ((last :: pprev).take N))
              * max 0 (last.GetBlockTime - oldest.GetBlockTime)) (300 * (N : Int))) := by
  obtain ⟨hlen, hinv, hmax, hfirst⟩ := KGWLoop_from_init P last 300 144 4032 (last :: pprev)
  have hN1 := hfirst last pprev rfl (by omega)
  have hNmax := hmax (by decide)
  obtain ⟨_, havg, _, htarget, hactual⟩ := hinv
  have hne : (last :: pprev).take
      (KGWLoop P last 300 144 4032 (last :: pprev) 1 KGWState.init).PastBlocksMass ≠ [] := by
    intro h
    have := congrArg List.length h
    rw [List.length_take, Nat.min_eq_left hlen] at this
    simp at this
    omega
  obtain ⟨oldest, hold⟩ : ∃ oldest, ((last :: pprev).take
      (KGWLoop P last 300 144 4032 (last :: pprev) 1 KGWState.init).PastBlocksMass).getLast?
        = some oldest := by
    cases hg : ((last :: pprev).take
      (KGWLoop P last 300 144 4032 (last :: pprev) 1 KGWState.init).PastBlocksMass).getLast? with
    | none => exact absurd (List.getLast?_eq_none_iff.mp hg) hne
    | some o => exact ⟨o, rfl⟩
  have hact := hactual oldest hold
  rw [List.length_take, Nat.min_eq_left hlen] at htarget
  refine ⟨_, oldest, rfl, hN1, hNmax, hlen, hold, ?_, rfl, ?_⟩
  · have hcond : ¬ (last.nHeight = 0 ∨ last.nHeight < 144) := by omega
    simp only [KimotoGravityWell]
    rw [if_neg hcond, min_eq_ifs, hact, htarget, havg]
    congr 2
    unfold kgwScaledTarget
    by_cases he : max 0 (last.GetBlockTime - oldest.GetBlockTime) = 0
    · rw [if_pos he, if_neg (by rw [he]; simp)]
    · rw [if_neg he, if_pos ⟨he, by push_cast; omega⟩]
      push_cast
      rfl
  · intro hpos
    exact (Int.fdiv_eq_tdiv (Int.mul_nonneg hpos (le_max_left _ _)) (by omega)).symm

/-- C16, witness: the 145-block mainnet chain with blocks 300 seconds apart
and bits `0x1d00ffff`; the loop samples 144 blocks, the oldest at height 1,
42900 seconds before the tip. -/
theorem C16_KGW_scaled_blended_average_witness :
    KimotoGravityWell mainnetParams
        (⟨144, 44200, 0x1d00ffff, 4, 44200⟩ :: sampleChain 144 0x1d00ffff) ⟨44500⟩
        300 144 4032 0
      = CBigNum.GetCompact (min (mainnetParams.ProofOfWorkLimit 0 : Int)
          (kgwScaledTarget (blendedAverage (decodedTargets
              ((⟨144, 44200, 0x1d00ffff, 4, 44200⟩ :: sampleChain 144 0x1d00ffff).take 144)))
            (max 0 ((44200 : Int) - 1300)) 144)) := by
  obtain ⟨N, oldest, hN, _, _, _, hold, hval, _, _⟩ :=
    C16_KGW_scaled_blended_average mainnetParams ⟨144, 44200, 0x1d00ffff, 4, 44200⟩
      (sampleChain 144 0x1d00ffff) ⟨44500⟩ 0 (by decide)
  have hN' : N = 144 := hN.trans (by decide)
  subst hN'
  have h2 : ((⟨144, 44200, 0x1d00ffff, 4, 44200⟩ :: sampleChain 144 0x1d00ffff).take 144).getLast?
      = some ⟨1, 1300, 0x1d00ffff, 1, 1300⟩ := by decide
  rw [h2] at hold
  cases hold
  exact hval

/-- C17, counterexample: bits `0x207ffffe` and `0x207fffff` decode without
flags to non-zero targets, the first smaller than the second, and both blocks
have the work 2. -/
theorem C17_counterexample_equal_work :
    (uint256.SetCompact 0x207ffffe).fNegative = false ∧
    (uint256.SetCompact 0x207ffffe).fOverflow = false ∧
    (uint256.SetCompact 0x207fffff).fNegative = false ∧
    (uint256.SetCompact 0x207fffff).fOverflow = false ∧
    0 < (uint256.SetCompact 0x207ffffe).target ∧
    (uint256.SetCompact 0x207ffffe).target < (uint256.SetCompact 0x207fffff).target ∧
    GetBlockProof ⟨11, 4300, 0x207ffffe, 0, 4300⟩ = 2 ∧
    GetBlockProof ⟨11, 4300, 0x207fffff, 0, 4300⟩ = 2 ∧
    ¬ (GetBlockProof ⟨11, 4300, 0x207ffffe, 0, 4300⟩
        > GetBlockProof ⟨11, 4300, 0x207fffff, 0, 4300⟩) := by
  decide

/-- C17, amended: for every two blocks whose bits decode, without negative or
overflow flag, to non-zero targets `target1 < target2`, the work of the first
is at least the work of the second, and it is strictly greater whenever
`(target1 + 1) * (target2 + 1) <= 2 ^ 256 * (target2 - target1)`. -/
theorem C17_GetBlockProof_strict_when_apart (b1 b2 : CBlockIndex)
    (hn1 : (uint256.SetCompact b1.nBits).fNegative = false)
    (ho1 : (uint256.SetCompact b1.nBits).fOverflow = false)
    (hn2 : (uint256.SetCompact b2.nBits).fNegative = false)
    (ho2 : (uint256.SetCompact b2.nBits).fOverflow = false)
    (hpos : 0 < (uint256.SetCompact b1.nBits).target)
    (hlt : (uint256.SetCompact b1.nBits).target < (uint256.SetCompact b2.nBits).target) :
    GetBlockProof b1 ≥ GetBlockProof b2 ∧
    (((uint256.SetCompact b1.nBits).target + 1) * ((uint256.SetCompact b2.nBits).target + 1)
        ≤ 2 ^ 256 * ((uint256.SetCompact b2.nBits).target - (uint256.SetCompact b1.nBits).target) →
      GetBlockProof b1 > GetBlockProof b2) := by
  rw [GetBlockProof_eq_reference, GetBlockProof_eq_reference]
  have h1 : (uint256.SetCompact b1.nBits).target ≠ 0 := by omega
  have h2 : (uint256.SetCompact b2.nBits).target ≠ 0 := by omega
  simp only [GetBlockProof_reference, hn1, ho1, hn2, ho2, h1, h2, Bool.false_eq_true,
    or_self, if_false]
  refine ⟨Nat.div_le_div_left (by omega) (by omega), fun hgap => ?_⟩
  apply blockProof_strict_arith _ _ _ (by omega) (by omega)
  have e : (uint256.SetCompact b2.nBits).target + 1 - ((uint256.SetCompact b1.nBits).target + 1)
      = (uint256.SetCompact b2.nBits).target - (uint256.SetCompact b1.nBits).target := by omega
  rw [e]
  exact hgap

/-- C17, witness: bits `0x1c00ffff` and `0x1d00ffff`, whose works differ. -/
theorem C17_GetBlockProof_strict_when_apart_witness :
    GetBlockProof ⟨9, 3700, 0x1c00ffff, 0, 3700⟩ > GetBlockProof ⟨9, 3700, 0x1d00ffff, 0, 3700⟩ :=
  (C17_GetBlockProof_strict_when_apart ⟨9, 3700, 0x1c00ffff, 0, 3700⟩
    ⟨9, 3700, 0x1d00ffff, 0, 3700⟩
    (by decide) (by decide) (by decide) (by decide) (by decide) (by decide)).2 (by decide)

/-- C18: for every hash, compact bits and algorithm whose `ProofOfWorkLimit`
fits in 256 bits, if `CheckProofOfWork(hash, bits, algo)` returns true then
decoding the bits reports neither negative nor overflow, the target is
non-zero, and `GetBlockProof` of a block carrying those bits is at least 1. -/
theorem C18_validated_block_has_work (P : ChainParams) (hash nBits : Nat) (algo : Int)
    (block : CBlockIndex) (hbits : block.nBits = nBits)
    (hfit : P.ProofOfWorkLimit algo < 2 ^ 256)
    (hcheck : CheckProofOfWork P hash nBits algo = true) :
    (uint256.SetCompact nBits).fNegative = false ∧
    (uint256.SetCompact nBits).fOverflow = false ∧
    (uint256.SetCompact nBits).target ≠ 0 ∧
    1 ≤ GetBlockProof block := by
  obtain ⟨hpos, hle⟩ := CheckProofOfWork_true_range P hash nBits algo hcheck
  have hlt : CBigNum.SetCompact nBits < ((2 ^ 256 : Nat) : Int) := by
    have : ((P.ProofOfWorkLimit algo : Nat) : Int) < ((2 ^ 256 : Nat) : Int) := by
      exact_mod_cast hfit
    omega
  obtain ⟨hn, ho, ht⟩ := uint256_SetCompact_of_pos nBits hpos hlt
  have ht0 : (uint256.SetCompact nBits).target ≠ 0 := by
    intro h0
    rw [h0] at ht
    simp at ht
    omega
  refine ⟨hn, ho, ht0, ?_⟩
  rw [GetBlockProof_eq_reference]
  simp only [GetBlockProof_reference, hbits, hn, ho, ht0, Bool.false_eq_true, or_self, if_false]
  exact Nat.div_pos (Nat.le_of_lt (uint256_SetCompact_target_lt nBits)) (Nat.succ_pos _)

/-- C18, witness: mainnet floor, bits `0x1d00ffff`, hash 5. -/
theorem C18_validated_block_has_work_witness :
    (uint256.SetCompact 0x1d00ffff).fNegative = false ∧
    (uint256.SetCompact 0x1d00ffff).fOverflow = false ∧
    (uint256.SetCompact 0x1d00ffff).target ≠ 0 ∧
    1 ≤ GetBlockProof ⟨200, 61000, 0x1d00ffff, 0, 61000⟩ :=
  C18_validated_block_has_work mainnetParams 5 0x1d00ffff 0 ⟨200, 61000, 0x1d00ffff, 0, 61000⟩
    rfl (by decide) (by decide)

/-- C19: in the averaging loop of `KimotoGravityWell`, the blended average
`avg_1 = target_1`, `avg_i = avg_{i-1} + (target_i - avg_{i-1}) / i` (division
truncating toward zero) of the first `k` sampled targets lies between every
lower and every upper bound of these targets, hence between their minimum and
maximum, for every `k >= 1`; the variable `PastDifficultyAverage` at loop exit
is this average for the `N` sampled blocks; hence if every sampled block's
target is at most `L`, the average is at most `L`. -/
theorem C19_blended_average_within_targets (P : ChainParams) (last : CBlockIndex)
    (sp mn mx : Nat) (chain : List CBlockIndex) :
    (KGWLoop P last sp mn mx chain 1 KGWState.init).PastDifficultyAverage
      = blendedAverage (decodedTargets
          (chain.take (KGWLoop P last sp mn mx chain 1 KGWState.init).PastBlocksMass)) ∧
    (∀ k, 1 ≤ k → k ≤ chain.length → ∀ lo hi : Int,
      (∀ b ∈ chain.take k,
        lo ≤ CBigNum.SetCompact b.nBits ∧ CBigNum.SetCompact b.nBits ≤ hi) →
      lo ≤ blendedAverage (decodedTargets (chain.take k)) ∧
        blendedAverage (decodedTargets (chain.take k)) ≤ hi) ∧
    (∀ L : Int, 1 ≤ (KGWLoop P last sp mn mx chain 1 KGWState.init).PastBlocksMass →
      (∀ b ∈ chain.take (KGWLoop P last sp mn mx chain 1 KGWState.init).PastBlocksMass,
        CBigNum.SetCompact b.nBits ≤ L) →
      (KGWLoop P last sp mn mx chain 1 KGWState.init).PastDifficultyAverage ≤ L) := by
  obtain ⟨hlen, hinv, _, _⟩ := KGWLoop_from_init P last sp mn mx chain
  have hne : ∀ k, 1 ≤ k → k ≤ chain.length → chain.take k ≠ [] := by
    intro k h1 h2 h
    have := congrArg List.length h
    rw [List.length_take, Nat.min_eq_left h2] at this
    simp at this
    omega
  refine ⟨hinv.2.1, ?_, ?_⟩
  · intro k h1 h2 lo hi hb
    exact blendedAverage_between (chain.take k) (hne k h1 h2) lo hi hb
  · intro L h1 hb
    rw [hinv.2.1]
    have hts : ∀ t ∈ decodedTargets
        (chain.take (KGWLoop P last sp mn mx chain 1 KGWState.init).PastBlocksMass), t ≤ L := by
      intro t ht
      unfold decodedTargets at ht
      obtain ⟨b, hbm, rfl⟩ := List.mem_map.mp ht
      exact hb b hbm
    have hne' : decodedTargets
        (chain.take (KGWLoop P last sp mn mx chain 1 KGWState.init).PastBlocksMass) ≠ [] := by
      unfold decodedTargets
      simpa using hne _ h1 hlen
    unfold blendedAverage
    exact blendFrom_le L _ 0 1 (le_refl 1) (fun h => absurd h (by decide)) hts (Or.inr hne')

/-- C20: on every well-formed chain `GetNextWorkRequired_Original` returns a
value (`assert(pindexFirst)` does not fail). It returns the compact floor for
every next height below 135; from next height 135 on, between boundaries, it
returns without looking back; it reaches the retarget computation only at a
next height that is a multiple of 8 and at least 136, where the look-back is 8
blocks (the next height is not 8, so the 7-block branch is not taken), the
window start is the existing block at height `tip.height - 8`, and the result
is the retargeted value. -/
theorem C20_legacy_on_well_formed_chain (P : ChainParams) (last : CBlockIndex)
    (pprev : List CBlockIndex) (pblock : CBlockHeader) (algo : Int)
    (hwf : wellFormedChain (last :: pprev) = true) :
    (GetNextWorkRequired_Original P (last :: pprev) pblock algo).isSome = true ∧
    (last.nHeight + 1 < 135 →
      GetNextWorkRequired_Original P (last :: pprev) pblock algo
        = some (CBigNum.GetCompact (P.ProofOfWorkLimit algo))) ∧
    (135 ≤ last.nHeight + 1 → (last.nHeight + 1) % 8 ≠ 0 →
      GetNextWorkRequired_Original P (last :: pprev) pblock algo
        = some (if P.TestNet = true then
            (if (pblock.nTime : Int) > (last.nTime : Int) + 1200
              then CBigNum.GetCompact (P.ProofOfWorkLimit algo)
              else lastNonSpecialBits (CBigNum.GetCompact (P.ProofOfWorkLimit algo)) last pprev)
          else last.nBits)) ∧
    (135 ≤ last.nHeight + 1 → (last.nHeight + 1) % 8 = 0 →
      136 ≤ last.nHeight + 1 ∧ (last.nHeight : Int) + 1 ≠ nInterval ∧
      ∃ first rest, walkBack (last :: pprev) 8 = first :: rest ∧
        first.nHeight + 8 = last.nHeight ∧
        GetNextWorkRequired_Original P (last :: pprev) pblock algo
          = some (CBigNum.GetCompact
              (min (P.ProofOfWorkLimit algo : Int) (legacyRetarget last first)))) := by
  have hlen : last.nHeight = pprev.length := ((wellFormedChain_cons last pprev).mp hwf).1
  have hfloor : last.nHeight + 1 < 135 →
      GetNextWorkRequired_Original P (last :: pprev) pblock algo
        = some (CBigNum.GetCompact (P.ProofOfWorkLimit algo)) := by
    intro h
    have h1 : (last.nHeight : Int) + 1 < 135 := by omega
    simp only [GetNextWorkRequired_Original, h1, if_true]
  have hbetween : 135 ≤ last.nHeight + 1 → (last.nHeight + 1) % 8 ≠ 0 →
      GetNextWorkRequired_Original P (last :: pprev) pblock algo
        = some (if P.TestNet = true then
            (if (pblock.nTime : Int) > (last.nTime : Int) + 1200
              then CBigNum.GetCompact (P.ProofOfWorkLimit algo)
              else lastNonSpecialBits (CBigNum.GetCompact (P.ProofOfWorkLimit algo)) last pprev)
          else last.nBits) := by
    intro h135 hnb
    have h1 : ¬ ((last.nHeight : Int) + 1 < 135) := by omega
    have h2 : ((last.nHeight : Int) + 1) % nInterval ≠ 0 := by rw [nInterval_eq]; omega
    have h1200 : nTargetSpacing * 2 = 1200 := by decide
    simp only [GetNextWorkRequired_Original]
    rw [if_neg h1, if_pos h2, h1200]
    by_cases ht : P.TestNet = true
    · rw [if_pos ht, if_pos ht]
      by_cases hq : (pblock.nTime : Int) > (last.nTime : Int) + 1200
      · rw [if_pos hq, if_pos hq]
      · rw [if_neg hq, if_neg hq]
    · rw [if_neg ht, if_neg ht]
  have hboundary : 135 ≤ last.nHeight + 1 → (last.nHeight + 1) % 8 = 0 →
      136 ≤ last.nHeight + 1 ∧ (last.nHeight : Int) + 1 ≠ nInterval ∧
      ∃ first rest, walkBack (last :: pprev) 8 = first :: rest ∧
        first.nHeight + 8 = last.nHeight ∧
        GetNextWorkRequired_Original P (last :: pprev) pblock algo
          = some (CBigNum.GetCompact
              (min (P.ProofOfWorkLimit algo : Int) (legacyRetarget last first))) := by
    intro h135 hb
    have h7 : 7 < pprev.length := by omega
    have hstart : pprev[7]? = some (pprev.get ⟨7, h7⟩) := List.getElem?_eq_getElem h7
    obtain ⟨rf, hfirst⟩ := walkBack_of_getElem? (last :: pprev) 8 (pprev.get ⟨7, h7⟩)
      ((List.getElem?_cons_succ).trans hstart)
    have hh := wellFormedChain_height (last :: pprev) hwf 8 (pprev.get ⟨7, h7⟩)
      ((List.getElem?_cons_succ).trans hstart)
    simp only [List.length_cons] at hh
    refine ⟨by omega, by rw [nInterval_eq]; omega, pprev.get ⟨7, h7⟩, rf, hfirst, by omega, ?_⟩
    exact Original_retarget P last pprev pblock algo _ hb h135 hstart
  refine ⟨?_, hfloor, hbetween, hboundary⟩
  by_cases h135 : last.nHeight + 1 < 135
  · rw [hfloor h135]; rfl
  · by_cases hb : (last.nHeight + 1) % 8 = 0
    · obtain ⟨_, _, first, rest, _, _, hr⟩ := hboundary (by omega) hb
      rw [hr]; rfl
    · rw [hbetween (by omega) hb]; rfl

/-- C20, witness: the well-formed 136-block mainnet chain with bits
`0x1d00ffff`, whose tip at height 135 is at a retarget boundary. -/
theorem C20_legacy_on_well_formed_chain_witness :
    (GetNextWorkRequired_Original mainnetParams
        (⟨135, 41500, 0x1d00ffff, 0, 41500⟩ :: sampleChain 135 0x1d00ffff) ⟨42000⟩ 0).isSome
      = true :=
  (C20_legacy_on_well_formed_chain mainnetParams ⟨135, 41500, 0x1d00ffff, 0, 41500⟩
    (sampleChain 135 0x1d00ffff) ⟨42000⟩ 0 (by decide)).1

end Digi
